import Mathlib

/-!
Verification development for the ORCA automation pipeline.

Shallow embedding of the pipeline's core components:
  * `safe_file_utils.py`  — safe text reads and the outcome classifier,
  * `orca_output_utils.py` — primary-output resolution and safe parsing,
  * `state_store.py`      — the persisted queued/running/completed lists,
  * `job.py`              — the worker step, retry policy, opt→freq chaining,
                            frequency-deck synthesis and crash recovery,
  * `path_utils.py`       — collision-safe path disambiguation.

Text is modelled as `List Char` (one Python `str`); Python string
primitives (`lower`, `upper`, `strip`, `split`, `splitlines`, `isalpha`,
`float(...)` acceptance) are modelled for the ASCII fragment the pipeline
manipulates.  Directories are modelled as lists of file names in the order
the operating system enumerates them (CPython's `pathlib.Path.glob` yields
`os.scandir` order, which is not sorted).  Filesystem and subprocess
effects are made explicit: the result of a `read` becomes a parameter, and
each `StateStore` file write becomes one mutation applied to an in-memory
image of the three lists.
-/

namespace Orca

/-! ## Python string primitives -/

/-- Python whitespace for `str.strip` / `str.split` / `\s` (ASCII fragment). -/
def isPySpace (c : Char) : Bool :=
  c = ' ' || c = '\t' || c = '\n' || c = '\r' || c = '\x0b' || c = '\x0c'

/-- ASCII `str.lower` on one character (the pipeline's patterns are ASCII). -/
def pyLowerChar (c : Char) : Char :=
  if 'A' ≤ c && c ≤ 'Z' then Char.ofNat (c.toNat + 32) else c

/-- ASCII `str.upper` on one character. -/
def pyUpperChar (c : Char) : Char :=
  if 'a' ≤ c && c ≤ 'z' then Char.ofNat (c.toNat - 32) else c

def pyLower (s : List Char) : List Char := s.map pyLowerChar

def pyUpper (s : List Char) : List Char := s.map pyUpperChar

/-- Python `str.capitalize`: first character upper-cased, the rest lower-cased. -/
def pyCapitalize (s : List Char) : List Char :=
  match s with
  | [] => []
  | c :: rest => pyUpperChar c :: pyLower rest

/-- Python `str.strip()` (no argument): drop leading and trailing whitespace. -/
def pyStrip (s : List Char) : List Char :=
  ((s.dropWhile isPySpace).reverse.dropWhile isPySpace).reverse

/-- Worker for `pySplit`; `acc` holds the current word reversed. -/
def pySplitAux : List Char → List Char → List (List Char)
  | [], acc => if acc.isEmpty then [] else [acc.reverse]
  | c :: rest, acc =>
    if isPySpace c then
      if acc.isEmpty then pySplitAux rest [] else acc.reverse :: pySplitAux rest []
    else pySplitAux rest (c :: acc)

/-- Python `str.split()` (no argument): split on whitespace runs, no empties. -/
def pySplit (s : List Char) : List (List Char) := pySplitAux s []

/-- Worker for `pySplitlines`; `acc` holds the current line reversed. -/
def pySplitlinesAux : List Char → List Char → List (List Char)
  | [], acc => if acc.isEmpty then [] else [acc.reverse]
  | '\r' :: '\n' :: tl, acc => acc.reverse :: pySplitlinesAux tl []
  | '\r' :: tl, acc => acc.reverse :: pySplitlinesAux tl []
  | '\n' :: tl, acc => acc.reverse :: pySplitlinesAux tl []
  | c :: tl, acc => pySplitlinesAux tl (c :: acc)

/-- Python `str.splitlines()` restricted to the line breaks the pipeline
emits (`\n`, `\r`, `\r\n`). -/
def pySplitlines (s : List Char) : List (List Char) := pySplitlinesAux s []

/-- Python `str.isalpha()` on the ASCII fragment: non-empty, all letters. -/
def pyIsAlpha (s : List Char) : Bool :=
  !s.isEmpty && s.all Char.isAlpha

/-- Model of `pat.isPrefixOf text` with plain character equality. -/
def listStartsWith : List Char → List Char → Bool
  | _, [] => true
  | [], _ :: _ => false
  | c :: cs, p :: ps => c = p && listStartsWith cs ps

/-- Python `pat in text`: substring containment (case-sensitive). -/
def containsSub : List Char → List Char → Bool
  | [], p => listStartsWith [] p
  | c :: tl, p => listStartsWith (c :: tl) p || containsSub tl p

/-- Model of `re.search(pat, text, flags=re.IGNORECASE)` for a literal (metacharacter
free) pattern: case-insensitive substring containment. -/
def icontains (text pat : List Char) : Bool :=
  containsSub (pyLower text) (pyLower pat)

/-! ### Python `float(...)` acceptance

`float(s)` accepts an optionally signed decimal literal with optional
fractional part and exponent, `inf`/`infinity`/`nan` (case-insensitive),
single underscores between digits, and surrounding whitespace.  Only its
acceptance (does it raise `ValueError`?) matters to the pipeline. -/

/-- Digit run continuation: digits with single underscores between digits. -/
def digitsUAux : List Char → Bool
  | [] => true
  | c :: rest =>
    if c.isDigit then digitsUAux rest
    else if c = '_' then
      match rest with
      | c2 :: rest2 => c2.isDigit && digitsUAux rest2
      | [] => false
    else false

/-- A non-empty digit run, underscores allowed strictly between digits. -/
def isDigitsU : List Char → Bool
  | [] => false
  | c :: rest => c.isDigit && digitsUAux rest

/-- Mantissa: `digits`, `digits.`, `digits.digits` or `.digits`. -/
def isFloatMantissa (s : List Char) : Bool :=
  let intPart := s.takeWhile (fun c => c ≠ '.')
  let rest := s.dropWhile (fun c => c ≠ '.')
  match rest with
  | [] => isDigitsU s
  | _ :: frac =>
    (isDigitsU intPart && (frac.isEmpty || isDigitsU frac)) ||
    (intPart.isEmpty && isDigitsU frac)

/-- Exponent part after `e`/`E`: optional sign then a digit run. -/
def isFloatExponent (s : List Char) : Bool :=
  match s with
  | '+' :: rest => isDigitsU rest
  | '-' :: rest => isDigitsU rest
  | _ => isDigitsU s

/-- Unsigned numeric body: mantissa with optional `e`/`E` exponent. -/
def isFloatNumber (s : List Char) : Bool :=
  let mant := s.takeWhile (fun c => c ≠ 'e' && c ≠ 'E')
  let rest := s.dropWhile (fun c => c ≠ 'e' && c ≠ 'E')
  match rest with
  | [] => isFloatMantissa s
  | _ :: expo => isFloatMantissa mant && isFloatExponent expo

/-- Unsigned body: numeric literal or `inf`/`infinity`/`nan`. -/
def isFloatBody (s : List Char) : Bool :=
  isFloatNumber s ||
  (pyLower s = "inf".data || pyLower s = "infinity".data || pyLower s = "nan".data)

/-- Does `float(s)` succeed? -/
def pyFloatAccepts (s : List Char) : Bool :=
  let t := pyStrip s
  match t with
  | '+' :: rest => isFloatBody rest
  | '-' :: rest => isFloatBody rest
  | _ => isFloatBody t

/-! ## Outcome classifier — `safe_file_utils.is_orca_definitely_complete`

Returns `(is_complete, is_recoverable_error, is_fatal_error, error_reason)`
exactly as the source does.  All patterns are literal strings, so the
`re.search(..., re.IGNORECASE)` calls reduce to case-insensitive substring
containment; the normal-termination test `'ORCA TERMINATED NORMALLY' in
text` is case-sensitive. -/

def normalMarker : List Char := "ORCA TERMINATED NORMALLY".data

def fatal_patterns : List (List Char) :=
  ["Unknown basis set".data, "Unknown method".data, "Unknown functional".data,
   "Unknown key".data, "Syntax error".data, "Cannot find executable".data,
   "License error".data, "Out of memory".data, "Disk full".data,
   "Permission denied".data,
   "ABORTING THE RUN".data, "FATAL ERROR".data]

def recoverable_patterns : List (List Char) :=
  ["SCF NOT CONVERGED".data, "CONVERGENCE NOT REACHED".data,
   "OPTIMIZATION FAILED".data,
   "GEOMETRY OPTIMIZATION FAILED".data, "SYMMETRY PROBLEMS".data,
   "ENERGY TOO HIGH".data,
   "NEGATIVE FREQUENCIES".data, "MAXIMUM NUMBER OF CYCLES REACHED".data,
   "SCF CONVERGENCE FAILURE".data]

def is_orca_definitely_complete (text : List Char) :
    Bool × Bool × Bool × Option (List Char) :=
  if containsSub text normalMarker then
    (true, false, false, none)
  else
    match fatal_patterns.find? (fun p => icontains text p) with
    | some p => (true, false, true, some ("Fatal error: ".data ++ p))
    | none =>
      match recoverable_patterns.find? (fun p => icontains text p) with
      | some p => (true, true, false, some ("Recoverable error: ".data ++ p))
      | none =>
        if icontains text "ERROR".data then
          (true, true, false, some "Generic error (assumed recoverable)".data)
        else
          (false, false, false,
           some "No termination marker found (likely interrupted)".data)

/-- The four outcome classes of the specification. -/
inductive Outcome where
  | success
  | recoverable
  | fatal
  | incomplete
deriving DecidableEq, Repr

/-- The outcome denoted by a classifier tuple, following the case analysis
of `orca_output_utils.safe_parse_orca_output` (and `ORCAExecutor.run`):
complete without error flags ⇒ success; fatal flag ⇒ fatal; recoverable
flag ⇒ recoverable; otherwise incomplete. -/
def outcomeOfTuple (t : Bool × Bool × Bool × Option (List Char)) : Outcome :=
  match t with
  | (isComplete, isRecoverable, isFatal, _) =>
    if isComplete && !isRecoverable && !isFatal then .success
    else if isComplete && isFatal then .fatal
    else if isComplete && isRecoverable then .recoverable
    else .incomplete

/-- Classification of one output text into an outcome. -/
def classifyOutcome (text : List Char) : Outcome :=
  outcomeOfTuple (is_orca_definitely_complete text)

/-- The outcome `ORCAExecutor.run` reports to the worker for a
`safe_parse_orca_output` result `(success, is_recoverable, is_fatal, err)`:
success, else fatal, else recoverable, else incomplete. -/
def execOutcome (t : Bool × Bool × Bool × Option (List Char)) : Outcome :=
  match t with
  | (sOk, isRecoverable, isFatal, _) =>
    if sOk then .success
    else if isFatal then .fatal
    else if isRecoverable then .recoverable
    else .incomplete

/-! ## Output resolution — `orca_output_utils.resolve_primary_output`

A directory is a list of file names in the order the operating system
enumerates them.  `pathlib.Path.glob` yields entries in `os.scandir`
order (unspecified, not sorted) and its `*` wildcard does not match names
beginning with a dot. -/

def strEndsWith (s suffix : String) : Bool :=
  listStartsWith s.data.reverse suffix.data.reverse

def strStartsWith (s pre : String) : Bool := listStartsWith s.data pre.data

/-- Does `name` match the glob pattern `*` ++ `suffix`? -/
def globStarMatch (suffix : String) (name : String) : Bool :=
  strEndsWith name suffix && !strStartsWith name "."

def resolve_primary_output (listing : List String) (stem : String) :
    Option String :=
  let candidates := [stem ++ ".out", stem ++ "_orca.log", stem ++ ".log"]
  match candidates.find? (fun c => listing.contains c) with
  | some c => some c
  | none =>
    (listing.filter (globStarMatch ".out") ++
     listing.filter (globStarMatch "_orca.log") ++
     listing.filter (globStarMatch ".log")).head?

/-- Code-point lexicographic `≤` on character lists (alphabetical order
of file names). -/
def strLeData : List Char → List Char → Bool
  | [], _ => true
  | _ :: _, [] => false
  | a :: as, b :: bs =>
    if a.toNat < b.toNat then true
    else if b.toNat < a.toNat then false
    else strLeData as bs

/-- Insert into an alphabetically sorted list of names. -/
def insertSorted (x : String) : List String → List String
  | [] => [x]
  | y :: tl => if strLeData x.data y.data then x :: y :: tl else y :: insertSorted x tl

/-- Alphabetical (insertion) sort of a list of names. -/
def sortStrings (l : List String) : List String := l.foldr insertSorted []

/-- The resolver as the specification words it: within each fallback
class, the alphabetically first match.  Used only to compare against
`resolve_primary_output`. -/
def resolveSpecAlphabetical (listing : List String) (stem : String) :
    Option String :=
  let candidates := [stem ++ ".out", stem ++ "_orca.log", stem ++ ".log"]
  match candidates.find? (fun c => listing.contains c) with
  | some c => some c
  | none =>
    (sortStrings (listing.filter (globStarMatch ".out")) ++
     sortStrings (listing.filter (globStarMatch "_orca.log")) ++
     sortStrings (listing.filter (globStarMatch ".log"))).head?

/-! ## Safe read — `safe_file_utils.safe_read_text`

The file is a function from the attempt number to that attempt's result:
either raised exception class or the raw bytes read.  The Python source
does `path.read_text(encoding='utf-8', errors='ignore')` inside
`except (PermissionError, OSError)` — and `PermissionError` is a subclass
of `OSError`, so every `OSError` is retried while any other exception
propagates.  Sleeps are recorded in milliseconds (`backoff_start = 0.1` s,
doubled after each failed attempt). -/

inductive PyErr where
  | permissionError
  | blockingIOError
  | fileNotFoundError
  | otherOSError
  | nonOSError
deriving DecidableEq, Repr

/-- Membership in the `except (PermissionError, OSError)` clause of the
source: every constructor but `nonOSError` is an `OSError`. -/
def isOSErrorFamily : PyErr → Bool
  | .nonOSError => false
  | _ => true

/-- The "permission denied" / "busy" family named by the specification. -/
def isPermBusy : PyErr → Bool
  | .permissionError => true
  | .blockingIOError => true
  | _ => false

inductive DecodeMode where
  | ignore
  | replace
deriving DecidableEq, Repr

def replacementChar : Char := Char.ofNat 0xFFFD

/-- Is `b` a UTF-8 continuation byte? -/
def isCont (b : Nat) : Bool := 0x80 ≤ b && b ≤ 0xBF

/-- What an invalid subsequence decodes to under each error mode:
`ignore` drops it, `replace` yields one U+FFFD. -/
def badSeq (mode : DecodeMode) : List Char :=
  match mode with
  | .ignore => []
  | .replace => [replacementChar]

/-- Decode the first UTF-8 sequence (or maximal invalid subsequence) of a
non-empty byte list: the characters it contributes and the number of bytes
it consumes (always at least 1). -/
def utf8Chunk (mode : DecodeMode) : List Nat → List Char × Nat
  | [] => ([], 1)
  | b :: rest =>
    if b ≤ 0x7F then ([Char.ofNat b], 1)
    else if 0xC2 ≤ b && b ≤ 0xDF then
      match rest with
      | b2 :: _ =>
        if isCont b2 then ([Char.ofNat ((b - 0xC0) * 64 + (b2 - 0x80))], 2)
        else (badSeq mode, 1)
      | [] => (badSeq mode, 1)
    else if 0xE0 ≤ b && b ≤ 0xEF then
      let okB2 : Nat → Bool := fun b2 =>
        if b = 0xE0 then 0xA0 ≤ b2 && b2 ≤ 0xBF
        else if b = 0xED then 0x80 ≤ b2 && b2 ≤ 0x9F
        else isCont b2
      match rest with
      | b2 :: rest2 =>
        if okB2 b2 then
          match rest2 with
          | b3 :: _ =>
            if isCont b3 then
              ([Char.ofNat ((b - 0xE0) * 4096 + (b2 - 0x80) * 64 + (b3 - 0x80))], 3)
            else (badSeq mode, 2)
          | [] => (badSeq mode, 2)
        else (badSeq mode, 1)
      | [] => (badSeq mode, 1)
    else if 0xF0 ≤ b && b ≤ 0xF4 then
      let okB2 : Nat → Bool := fun b2 =>
        if b = 0xF0 then 0x90 ≤ b2 && b2 ≤ 0xBF
        else if b = 0xF4 then 0x80 ≤ b2 && b2 ≤ 0x8F
        else isCont b2
      match rest with
      | b2 :: rest2 =>
        if okB2 b2 then
          match rest2 with
          | b3 :: rest3 =>
            if isCont b3 then
              match rest3 with
              | b4 :: _ =>
                if isCont b4 then
                  ([Char.ofNat ((b - 0xF0) * 262144 + (b2 - 0x80) * 4096 +
                    (b3 - 0x80) * 64 + (b4 - 0x80))], 4)
                else (badSeq mode, 3)
              | [] => (badSeq mode, 3)
            else (badSeq mode, 2)
          | [] => (badSeq mode, 2)
        else (badSeq mode, 1)
      | [] => (badSeq mode, 1)
    else (badSeq mode, 1)

/-- Worker for `decodeUtf8`, structurally recursive on a fuel that is at
least the list length; every chunk consumes at least one byte, so the
zero-fuel case with a non-empty list is unreachable. -/
def decodeUtf8Go (mode : DecodeMode) : Nat → List Nat → List Char
  | _, [] => []
  | 0, _ :: _ => []
  | fuel + 1, b :: rest =>
    let (cs, n) := utf8Chunk mode (b :: rest)
    cs ++ decodeUtf8Go mode fuel (rest.drop (n - 1))

/-- UTF-8 decoding of a byte list under a Python `errors=` mode, as
performed by `bytes.decode('utf-8', errors=...)`: ASCII and well-formed
2–4 byte sequences decode to their code point; an invalid maximal
subsequence is dropped (`ignore`) or becomes U+FFFD (`replace`). -/
def decodeUtf8 (mode : DecodeMode) (l : List Nat) : List Char :=
  decodeUtf8Go mode l.length l

/-- Result of one whole `safe_read_text`-style call. -/
inductive ReadOutcome where
  | success (text : List Char)
  | failure
  | raised (e : PyErr)
deriving DecidableEq, Repr

/-- The retry loop of `safe_read_text`, generic in the set of retried
exception classes and the decode error mode so the source behaviour and
the specification's claimed behaviour can be compared.  `k` is the current
attempt index, `remaining` the attempts left, `backoff` the next sleep in
milliseconds; the second component lists the sleeps performed. -/
def readLoop (file : Nat → PyErr ⊕ List Nat) (retryOn : PyErr → Bool)
    (mode : DecodeMode) : Nat → Nat → Nat → ReadOutcome × List Nat
  | _, 0, _ => (.failure, [])
  | k, r + 1, backoff =>
    match file k with
    | .inr bytes => (.success (decodeUtf8 mode bytes), [])
    | .inl e =>
      if retryOn e then
        if r = 0 then (.failure, [])
        else
          let (res, sl) := readLoop file retryOn mode (k + 1) r (backoff * 2)
          (res, backoff :: sl)
      else (.raised e, [])

/-- Model of `safe_file_utils.safe_read_text` at its default arguments
(`max_attempts = 5`, `backoff_start = 0.1` s): retries every `OSError`,
decodes with `errors='ignore'`. -/
def safe_read_text (file : Nat → PyErr ⊕ List Nat) : ReadOutcome × List Nat :=
  readLoop file isOSErrorFamily .ignore 0 5 100

/-- The safe read as the claim words it: only permission-denied/busy
errors retried, invalid bytes replaced.  Used only for comparison. -/
def safeReadSpecClaim (file : Nat → PyErr ⊕ List Nat) :
    ReadOutcome × List Nat :=
  readLoop file isPermBusy .replace 0 5 100

/-- Model of `orca_output_utils.safe_parse_orca_output` with the read result made
explicit: `none` models `safe_read_text` returning `None`. -/
def safe_parse_orca_output (readResult : Option (List Char)) (name : List Char) :
    Bool × Bool × Bool × Option (List Char) :=
  match readResult with
  | none => (false, false, true, some ("Could not read output file: ".data ++ name))
  | some text =>
    let t := is_orca_definitely_complete text
    match t with
    | (isComplete, isRecoverable, isFatal, errorReason) =>
      if isComplete && !isRecoverable && !isFatal then (true, false, false, none)
      else if isComplete && isFatal then (false, false, true, errorReason)
      else if isComplete && isRecoverable then (false, true, false, errorReason)
      else (false, false, false,
        some ("Incomplete/interrupted: ".data ++ errorReason.getD []))

/-! ## Coordinate extraction — `ORCAExecutor.extract_final_xyz`

The source takes the `re.finditer` matches of
`CARTESIAN COORDINATES \(ANGSTROEM\)([\s\S]*?)\n\s*\n` and keeps the last
group.  The lazy group ends at the first position where the terminator
`\n\s*\n` can match; the greedy `\s*` inside the terminator then consumes
as far as possible while still leaving a final newline, and scanning
resumes after the whole match. -/

def xyzHeader : List Char := "CARTESIAN COORDINATES (ANGSTROEM)".data

/-- Length consumed by a `\n\s*\n` match at the head of `l` (greedy `\s*`
with backtracking for the final `\n`), or `none`. -/
def termLen (l : List Char) : Option Nat :=
  match l with
  | '\n' :: rest =>
    let wlen := (rest.takeWhile isPySpace).length
    match (List.range (wlen + 1)).reverse.find?
        (fun j => rest.get? j = some '\n') with
    | some j => some (1 + j + 1)
    | none => none
  | _ => none

/-- Worker for `findTerm`: fuel-structural scan over the tails of `l`
(the zero-fuel case with a non-empty list is unreachable for
fuel ≥ length). -/
def findTermGo : Nat → List Char → Option (Nat × Nat)
  | fuel, l =>
    match termLen l with
    | some t => some (0, t)
    | none =>
      match fuel, l with
      | _, [] => none
      | 0, _ :: _ => none
      | f + 1, _ :: tl => (findTermGo f tl).map (fun p => (p.1 + 1, p.2))

/-- First offset `L` (and consumed length) at which `\n\s*\n` matches
inside `l`; the lazy group of the block regex ends at the first offset. -/
def findTerm (l : List Char) : Option (Nat × Nat) := findTermGo l.length l

/-- Worker for `orcaBlocks`: fuel-structural (the header is non-empty and
each match consumes past it, so fuel ≥ length keeps the zero-fuel case
with a non-empty list unreachable). -/
def orcaBlocksGo : Nat → List Char → List (List Char)
  | _, [] => []
  | 0, _ :: _ => []
  | fuel + 1, c :: tl =>
    if listStartsWith (c :: tl) xyzHeader then
      match findTerm ((c :: tl).drop xyzHeader.length) with
      | some (L, t) =>
        ((c :: tl).drop xyzHeader.length).take L ::
          orcaBlocksGo fuel (((c :: tl).drop xyzHeader.length).drop (L + t))
      | none => []
    else orcaBlocksGo fuel tl

/-- All group-1 captures of the block regex, in match order
(`re.finditer`; scanning resumes after each whole match). -/
def orcaBlocks (l : List Char) : List (List Char) := orcaBlocksGo l.length l

/-- Model of `f"{parts[0]} {parts[-3]} {parts[-2]} {parts[-1]}"` when the shape
guard of the source holds. -/
def emitCoord (parts : List (List Char)) : List Char :=
  match parts, parts.reverse with
  | p0 :: _, r1 :: r2 :: r3 :: _ =>
    p0 ++ ' ' :: (r3 ++ ' ' :: (r2 ++ ' ' :: r1))
  | _, _ => []

/-- The line filter of the source: at least four whitespace fields, the
first alphabetic, the last accepted by `float`. -/
def keepCoordLine (ln : List Char) : Option (List Char) :=
  let parts := pySplit ln
  if 4 ≤ parts.length && pyIsAlpha (parts.headD []) then
    if pyFloatAccepts (parts.getLastD []) then some (emitCoord parts) else none
  else none

/-- Model of `ORCAExecutor.extract_final_xyz` over the output text. -/
def extract_final_xyz (text : List Char) : Option (List Char) :=
  match (orcaBlocks text).getLast? with
  | none => none
  | some lastBlock =>
    let lines := (pySplitlines (pyStrip lastBlock)).filter
      (fun ln => !(pyStrip ln).isEmpty)
    let coords := lines.filterMap keepCoordLine
    if coords.isEmpty then none else some (List.intercalate "\n".data coords)

/-- The line-keeping criterion exactly as the claim words it: first
whitespace-delimited field alphabetic and final field accepted by
`float` — with no requirement on the number of fields.  Used only for
comparison. -/
def claimKeepsLine (ln : List Char) : Bool :=
  let parts := pySplit ln
  pyIsAlpha (parts.headD []) && pyFloatAccepts (parts.getLastD [])

/-- The extraction with the claim's line criterion amended by the
four-field requirement, written spec-side for the refinement proof. -/
def extractSpecFixed (text : List Char) : Option (List Char) :=
  match (orcaBlocks text).getLast? with
  | none => none
  | some lastBlock =>
    let lines := (pySplitlines (pyStrip lastBlock)).filter
      (fun ln => !(pyStrip ln).isEmpty)
    let coords := lines.filterMap (fun ln =>
      let parts := pySplit ln
      if claimKeepsLine ln && 4 ≤ parts.length then some (emitCoord parts)
      else none)
    if coords.isEmpty then none else some (List.intercalate "\n".data coords)

/-! ## Frequency-deck synthesis — `JobManager._make_freq_inp`

Configuration values are the raw strings of `config.txt`; the `int(...)`
round-trips of charge and multiplicity are elided (their canonical decimal
rendering is taken as given). -/

structure OrcaConfig where
  method : List Char
  basis_set : List Char
  charge : List Char
  multiplicity : List Char
  nprocs : List Char
  maxcore : List Char
  solvent_model : List Char
  solvent_name : List Char
  extra_keywords : List Char

/-- The guard of the source:
`solvent_model != 'none' and solvent_model.upper() in ['CPCM','SMD','COSMO']`
after `.strip().lower()`. -/
def solventCond (model : List Char) : Bool :=
  let sm := pyLower (pyStrip model)
  sm ≠ "none".data &&
    ["CPCM".data, "SMD".data, "COSMO".data].contains (pyUpper sm)

/-- The solvent keyword of `_make_freq_inp`:
`f" {solvent_model.upper()}(Solvent={solvent_name.capitalize()})"` when the
guard holds, empty otherwise. -/
def freqSolventKw (cfg : OrcaConfig) : List Char :=
  if solventCond cfg.solvent_model then
    " ".data ++ pyUpper (pyLower (pyStrip cfg.solvent_model)) ++
      "(Solvent=".data ++ pyCapitalize (pyStrip cfg.solvent_name) ++ ")".data
  else []

/-- The header keyword line `! {method} {basis} Freq{solvent_kw}` plus the
optional ` {extra_keywords}`. -/
def makeFreqFirstLine (cfg : OrcaConfig) : List Char :=
  let first := "! ".data ++ cfg.method ++ " ".data ++ cfg.basis_set ++
    " Freq".data ++ freqSolventKw cfg
  let ek := pyStrip cfg.extra_keywords
  if ek.isEmpty then first else first ++ " ".data ++ ek

/-- Model of `JobManager._make_freq_inp`: the full synthesized frequency deck. -/
def make_freq_inp (cfg : OrcaConfig) (xyzBlock : List Char) : List Char :=
  makeFreqFirstLine cfg ++ "\n\n".data ++
  "%pal nprocs ".data ++ cfg.nprocs ++ " end\n".data ++
  "%maxcore ".data ++ cfg.maxcore ++ "\n\n".data ++
  "* xyz ".data ++ cfg.charge ++ " ".data ++ cfg.multiplicity ++ "\n".data ++
  xyzBlock ++ "\n".data ++ "*\n".data

/-! ## Persisted job state — `state_store.py`

Each list lives in its own JSON file rewritten atomically per mutation;
the model keeps the three lists and applies one `Mut` per file write, so
"observable point" = after any single `StateStore` mutation.  Job records
round-trip through `to_dict`/`from_dict` unchanged for the fields
modelled here (paths, timestamps and error strings are elided). -/

structure JobV where
  job_id : String
  job_type : String
  inp_stem : String
  retries : Nat
  status : String := "waiting"
  work_dir : Option String := none
deriving DecidableEq, Repr

/-- Model of `StateStore.enqueue`: append unless some record shares the `job_id`. -/
def storeEnqueue (q : List JobV) (j : JobV) : List JobV :=
  if q.all (fun x => x.job_id ≠ j.job_id) then q ++ [j] else q

/-- Model of `StateStore.dequeue`: drop every record with the `job_id`. -/
def storeDequeue (q : List JobV) (id : String) : List JobV :=
  q.filter (fun x => x.job_id ≠ id)

/-- Model of `StateStore.add_running`: append unless some record shares the `job_id`. -/
def storeAddRunning (r : List JobV) (j : JobV) : List JobV :=
  if r.all (fun x => x.job_id ≠ j.job_id) then r ++ [j] else r

/-- Model of `StateStore.remove_running`: drop every record with the `job_id`. -/
def storeRemoveRunning (r : List JobV) (id : String) : List JobV :=
  r.filter (fun x => x.job_id ≠ id)

/-- Model of `StateStore.append_completed`: unconditional append. -/
def storeAppendCompleted (c : List JobV) (j : JobV) : List JobV := c ++ [j]

structure Store where
  queued : List JobV := []
  running : List JobV := []
  completed : List JobV := []
deriving DecidableEq, Repr

/-- One atomic `StateStore` file rewrite. -/
inductive Mut where
  | enq (j : JobV)
  | deq (id : String)
  | addRun (j : JobV)
  | remRun (id : String)
  | appendComp (j : JobV)
deriving DecidableEq, Repr

def applyMut (st : Store) : Mut → Store
  | .enq j => { st with queued := storeEnqueue st.queued j }
  | .deq id => { st with queued := storeDequeue st.queued id }
  | .addRun j => { st with running := storeAddRunning st.running j }
  | .remRun id => { st with running := storeRemoveRunning st.running id }
  | .appendComp j => { st with completed := storeAppendCompleted st.completed j }

def applyMuts (st : Store) (ms : List Mut) : Store := ms.foldl applyMut st

/-- The queued/running exclusivity invariant of the specification:
no `job_id` occurs in both persisted lists. -/
def StoreInv (st : Store) : Prop :=
  ∀ j ∈ st.queued, ∀ r ∈ st.running, j.job_id ≠ r.job_id

instance (st : Store) : Decidable (StoreInv st) := by
  unfold StoreInv; infer_instance

/-! ## Scheduler — `job.JobManager`

`SchedState` collects the in-memory structures of the scheduler (pending
FIFO, running map, completed list, fatal flag), the persisted `Store`, an
archive log of `(job_id, "{kind}_{tag}")` entries (epoch suffix and `_N`
disambiguation of `_archive` elided), the count of `SendError`
notifications, and the waiting-directory listing. -/

structure SchedState where
  queue : List JobV := []
  runningMem : List (String × JobV) := []
  completedMem : List JobV := []
  store : Store := {}
  fatalSeen : Bool := false
  sentErrors : Nat := 0
  archives : List (String × String) := []
  waiting : List String := []
deriving DecidableEq, Repr

/-- Model of `JobManager.has_fatal_error`. -/
def has_fatal_error (s : SchedState) : Bool := s.fatalSeen

/-- Model of `JobManager._molecule_name`: strip a trailing `_opt`, else `_freq`. -/
def moleculeName (stem : String) : String :=
  if strEndsWith stem "_opt" then String.mk (stem.data.take (stem.data.length - 4))
  else if strEndsWith stem "_freq" then String.mk (stem.data.take (stem.data.length - 5))
  else stem

/-- Model of `pathlib.PurePath.suffix` split: `(stem, suffix)` of a file name. -/
def splitExt (name : String) : String × String :=
  let rev := name.data.reverse
  let extRev := rev.takeWhile (fun c => c ≠ '.')
  match rev.dropWhile (fun c => c ≠ '.') with
  | '.' :: stemRev =>
    if stemRev.isEmpty then (name, "")
    else (String.mk stemRev.reverse, String.mk ('.' :: extRev.reverse))
  | _ => (name, "")

/-- The `f"{base.stem}_{i}{base.suffix}"` candidate of `unique_path`. -/
def uniqueCandidate (base : String) (i : Nat) : String :=
  let (stem, suffix) := splitExt base
  if suffix.isEmpty then base ++ "_" ++ toString i
  else stem ++ "_" ++ toString i ++ suffix

def uniquePathGo (names : List String) (base : String) : Nat → Nat → String
  | i, 0 => uniqueCandidate base i
  | i, fuel + 1 =>
    let c := uniqueCandidate base i
    if names.contains c then uniquePathGo names base (i + 1) fuel else c

/-- Model of `path_utils.unique_path` over a directory listing: the base name if
free, else the first `_1, _2, …` disambiguation that is free (the fuel
`names.length + 1` always suffices since the candidates are distinct). -/
def uniquePathN (names : List String) (base : String) : String :=
  if names.contains base then uniquePathGo names base 1 (names.length + 1)
  else base

/-- Model of `path_utils.unique_job_id`; the `uuid4().hex[:6]` fragment is modelled
by a nonce supplied by the caller (distinct nonces stand for the
probabilistically fresh uuid fragments). -/
def unique_job_id (stem jobType : String) (nonce : Nat) : String :=
  stem ++ "_" ++ jobType ++ "_u" ++ toString nonce

/-- Model of `JobManager.add_job` for a job whose `job_id` is already assigned:
persist into the queued list (idempotent per id), then push onto the
in-memory FIFO. -/
def addJob (s : SchedState) (j : JobV) : SchedState :=
  { s with store := { s.store with queued := storeEnqueue s.store.queued j },
           queue := s.queue ++ [j] }

/-- Model of `JobManager._archive` folder tag `{kind}_{outcome tag}` (epoch and
collision suffix elided): `success`, `fatal`, else `failed`. -/
def archiveTag (jobType : String) (oc : Outcome) : String :=
  match oc with
  | .success => jobType ++ "_success"
  | .fatal => jobType ++ "_fatal"
  | _ => jobType ++ "_failed"

/-- Model of `JobManager._chain_frequency_calculation`, filesystem made explicit:
`ctx` is the text of the primary output resolved in the latest archived
`opt … success` directory of the molecule (`none` when that directory or
output is missing).  Yields the frequency job and the deck name written
under `waiting/`, or `none` when coordinate extraction fails. -/
def chainJobOf (waiting : List String) (j : JobV) (ctx : Option (List Char))
    (nonce : Nat) : Option (JobV × String) :=
  match ctx with
  | none => none
  | some text =>
    match extract_final_xyz text with
    | none => none
    | some _ =>
      let mol := moleculeName j.inp_stem
      let deck := uniquePathN waiting (mol ++ "_freq.inp")
      let stem := (splitExt deck).1
      some ({ job_id := unique_job_id stem "freq" nonce, job_type := "freq",
              inp_stem := stem, retries := 0, status := "waiting" }, deck)

/-- The `StateStore` mutations of the branch taken by `_worker` after the
executor returns. -/
def workerBranchMuts (maxR : Nat) (j : JobV) (oc : Outcome)
    (chain : Option JobV) : List Mut :=
  match oc with
  | .fatal => [.appendComp j]
  | .success => .appendComp j :: (match chain with
      | some cj => [.enq cj]
      | none => [])
  | .recoverable => [.appendComp j]
  | .incomplete =>
    if j.retries < maxR then [.enq { j with retries := j.retries + 1 }]
    else [.appendComp j]

/-- All `StateStore` mutations of one `_worker` iteration, in program
order: dequeue, add to running (with `work_dir` filled in), remove from
running after the run, then the branch mutations. -/
def workerMuts (maxR : Nat) (j : JobV) (wd : String) (oc : Outcome)
    (chain : Option JobV) : List Mut :=
  .deq j.job_id :: .addRun { j with work_dir := some wd } ::
    .remRun j.job_id :: workerBranchMuts maxR j oc chain

/-- One `_worker` iteration on a dequeued job `j`: `wd` is the freshly
minted working-directory name, `oc` the executor's classification of the
attempt, `ctx` the chaining context (see `chainJobOf`), `nonce` the
uuid fragment for a chained job id.  Returns the new state and whether
the worker thread exits (`return`).  The transient `running_mem` insert
and pop cancel within the iteration; status/timestamp churn on the job
record is elided. -/
def workerStep (maxR : Nat) (s : SchedState) (j : JobV) (wd : String)
    (oc : Outcome) (ctx : Option (List Char)) (nonce : Nat) :
    SchedState × Bool :=
  let chain : Option (JobV × String) :=
    if oc = .success && j.job_type = "opt" then chainJobOf s.waiting j ctx nonce
    else none
  let chainJ : Option JobV := chain.map (fun p => p.1)
  let store' := applyMuts s.store (workerMuts maxR j wd oc chainJ)
  let queue' := s.queue ++
    (match oc with
     | .incomplete =>
       if j.retries < maxR then [{ j with retries := j.retries + 1 }] else []
     | .success => (chain.map (fun p => p.1)).toList
     | _ => [])
  let waiting' := s.waiting ++ (match chain with
     | some p => [p.2]
     | none => [])
  ({ s with
      store := store',
      queue := queue',
      completedMem := s.completedMem ++ [j],
      fatalSeen := s.fatalSeen || oc = .fatal,
      sentErrors := s.sentErrors + (if oc = .fatal then 1 else 0),
      archives := s.archives ++ [(j.job_id, archiveTag j.job_type oc)],
      waiting := waiting' },
   oc = .fatal)

/-- Number of attempts a job undergoes when successive attempts classify
as `ocs` (first attempt first): an attempt is followed by another exactly
when the worker step re-enqueued the job. -/
def attemptsFrom (maxR : Nat) (j : JobV) : List Outcome → Nat
  | [] => 0
  | oc :: rest =>
    match ((workerStep maxR {} j "wd" oc none 0).1).queue with
    | [] => 1
    | j' :: _ => 1 + attemptsFrom maxR j' rest

/-! ## Crash recovery — `JobManager._recover_on_start`

The oracle gives, per running record, the classification of the primary
output located for it (`none` when neither the recorded working directory
nor the products tree yields an output).  `processWaiting` models the
orphan-deck loop: every `*.inp` of the waiting directory is renamed to a
collision-free sibling (`unique_path` of an existing path always differs
from it) and submitted with a fresh job id. -/

structure Disk where
  store : Store := {}
  waiting : List String := []
deriving DecidableEq, Repr

/-- Model of `StateStore` mutations and re-enqueued jobs for one running record. -/
def recRecordMuts (oracle : JobV → Option Outcome) (r : JobV) :
    List Mut × List JobV :=
  match oracle r with
  | some oc =>
    if oc = .success || oc = .fatal then
      ([.remRun r.job_id, .appendComp r], [])
    else
      ([.remRun r.job_id, .enq { r with status := "waiting" }],
       [{ r with status := "waiting" }])
  | none =>
    ([.enq { r with status := "waiting" }, .remRun r.job_id],
     [{ r with status := "waiting" }])

/-- Model of `_freq` suffix ⇒ frequency, else optimize. -/
def deckJobType (stem : String) : String :=
  if strEndsWith stem "_freq" then "freq" else "opt"

/-- The orphan-deck loop over the globbed `*.inp` snapshot: returns the
waiting listing after the renames, the submitted jobs in order, and the
next fresh nonce.  The job kind is computed from the deck's original stem
before the rename (`job.py` line 443), while the job id and `inp_stem`
come from the renamed deck. -/
def processWaiting (names : List String) (nonce : Nat) :
    List String → List String × List JobV × Nat
  | [] => (names, [], nonce)
  | d :: rest =>
    let jt := deckJobType (splitExt d).1
    let newName := uniquePathN names d
    let names' := if newName ≠ d then names.erase d ++ [newName] else names
    let stem := (splitExt newName).1
    let job : JobV := { job_id := unique_job_id stem jt nonce,
                        job_type := jt, inp_stem := stem,
                        retries := 0, status := "waiting" }
    let (ns, js, n') := processWaiting names' (nonce + 1) rest
    (ns, job :: js, n')

/-- All `StateStore` mutations of one recovery run, in program order. -/
def recoveryMuts (oracle : JobV → Option Outcome) (st : Store)
    (waiting : List String) (nonce : Nat) : List Mut :=
  (st.running.map (fun r => (recRecordMuts oracle r).1)).flatten ++
    ((processWaiting waiting nonce
        (waiting.filter (globStarMatch ".inp"))).2.1.map Mut.enq)

/-- Model of `JobManager._recover_on_start` as a function of the on-disk state:
returns the in-memory pending queue built by the run, the new disk state,
and the next fresh nonce. -/
def recoverOnStart (oracle : JobV → Option Outcome) (d : Disk) (nonce : Nat) :
    List JobV × Disk × Nat :=
  let requeued := (d.store.running.map (fun r => (recRecordMuts oracle r).2)).flatten
  let pw := processWaiting d.waiting nonce (d.waiting.filter (globStarMatch ".inp"))
  (d.store.queued ++ requeued ++ pw.2.1,
   { store := applyMuts d.store (recoveryMuts oracle d.store d.waiting nonce),
     waiting := pw.1 },
   pw.2.2)

/-- The persisted states reachable from an empty store by fresh-id
submissions, worker iterations, and recovery runs, observed at operation
boundaries.  The freshness hypotheses state that newly minted job ids (a
submission's id, a chained job's id, recovery's orphan-deck ids) do not
collide with ids currently in the running list — in the source they are
`unique_job_id` values carrying a fresh `uuid4` fragment. -/
inductive StoreReach : Store → Prop where
  | init : StoreReach {}
  | submit (st : Store) (j : JobV) (h : StoreReach st)
      (hfresh : ∀ r ∈ st.running, r.job_id ≠ j.job_id) :
      StoreReach (applyMut st (.enq j))
  | worker (st : Store) (maxR : Nat) (j : JobV) (wd : String) (oc : Outcome)
      (chain : Option JobV) (h : StoreReach st)
      (hchain : ∀ cj ∈ chain, ∀ r ∈ st.running, r.job_id ≠ cj.job_id) :
      StoreReach (applyMuts st (workerMuts maxR j wd oc chain))
  | recover (st : Store) (oracle : JobV → Option Outcome)
      (waiting : List String) (nonce : Nat) (h : StoreReach st)
      (hfresh : ∀ dj ∈ (processWaiting waiting nonce
          (waiting.filter (globStarMatch ".inp"))).2.1,
          ∀ r ∈ st.running, r.job_id ≠ dj.job_id) :
      StoreReach (applyMuts st (recoveryMuts oracle st waiting nonce))

/-! ## Concrete fixtures and auxiliary predicates -/

/-- Attempt result that the loop under scrutiny retries. -/
def isRetryAttempt (retryOn : PyErr → Bool) : PyErr ⊕ List Nat → Bool
  | .inl e => retryOn e
  | .inr _ => false

/-- A concrete optimization job used by concrete evaluations. -/
def jobOptA : JobV :=
  { job_id := "m_opt_a", job_type := "opt", inp_stem := "m_opt", retries := 0 }

/-- The frequency job built by `chainJobOf` (statement-side spelling). -/
def chainedFreqJob (waiting : List String) (stem : String) (nonce : Nat) : JobV :=
  { job_id := unique_job_id
      ((splitExt (uniquePathN waiting (moleculeName stem ++ "_freq.inp"))).1)
      "freq" nonce,
    job_type := "freq",
    inp_stem := (splitExt (uniquePathN waiting (moleculeName stem ++ "_freq.inp"))).1,
    retries := 0, status := "waiting" }

/-- A running record as persisted by a crashed run. -/
def jobRb : JobV :=
  { job_id := "b1", job_type := "opt", inp_stem := "m_opt", retries := 0,
    status := "running", work_dir := some "w" }

/-- A queued record used by concrete recovery evaluations. -/
def jobQa : JobV :=
  { job_id := "q1", job_type := "opt", inp_stem := "x_opt", retries := 0 }

/-- A crashed-run disk with one queued and one running record and no
orphan deck: the waiting directory holds only a staged geometry file. -/
def diskW : Disk :=
  { store := { queued := [jobQa], running := [jobRb], completed := [] },
    waiting := ["x_opt.xyz"] }

/-! ## Supporting lemmas -/

theorem char_le_iff (c d : Char) : c ≤ d ↔ c.toNat ≤ d.toNat := by
  rw [Char.le_def, UInt32.le_def]; exact BitVec.le_def

theorem charEq_of_toNat {c d : Char} (h : c.toNat = d.toNat) : c = d :=
  Char.eq_of_val_eq (UInt32.ext h)

theorem toNat_ofNat_valid {n : Nat} (h : n.isValidChar) :
    (Char.ofNat n).toNat = n := by
  rw [Char.ofNat, dif_pos h]; rfl

/-! ## C1 — outcome classification -/

/-- C1: the outcome classifier applies its rules in fixed first-match
order and is total: the normal-termination marker wins over any error
pattern; otherwise a fatal pattern yields fatal, then a recoverable
pattern yields recoverable, then a generic `ERROR` token yields
recoverable with the generic reason, and otherwise — the empty text
included — the result is incomplete; every text yields exactly one
outcome. -/
theorem C1_classifier_first_match_total (t : List Char) :
    (containsSub t normalMarker = true → classifyOutcome t = .success) ∧
    (containsSub t normalMarker = false →
      fatal_patterns.any (fun p => icontains t p) = true →
      classifyOutcome t = .fatal) ∧
    (containsSub t normalMarker = false →
      fatal_patterns.any (fun p => icontains t p) = false →
      recoverable_patterns.any (fun p => icontains t p) = true →
      classifyOutcome t = .recoverable) ∧
    (containsSub t normalMarker = false →
      fatal_patterns.any (fun p => icontains t p) = false →
      recoverable_patterns.any (fun p => icontains t p) = false →
      icontains t "ERROR".data = true →
      classifyOutcome t = .recoverable ∧
        is_orca_definitely_complete t =
          (true, true, false, some "Generic error (assumed recoverable)".data)) ∧
    (containsSub t normalMarker = false →
      fatal_patterns.any (fun p => icontains t p) = false →
      recoverable_patterns.any (fun p => icontains t p) = false →
      icontains t "ERROR".data = false →
      classifyOutcome t = .incomplete) ∧
    classifyOutcome [] = .incomplete ∧
    (∃! oc, classifyOutcome t = oc) := by
  refine ⟨?_, ?_, ?_, ?_, ?_, by decide, ⟨classifyOutcome t, rfl, fun y hy => hy.symm⟩⟩
  · intro h
    simp [classifyOutcome, is_orca_definitely_complete, h, outcomeOfTuple]
  · intro h hf
    rcases hfind : fatal_patterns.find? (fun p => icontains t p) with _ | p
    · rw [List.find?_eq_none] at hfind
      rw [List.any_eq_true] at hf
      obtain ⟨p, hp, hip⟩ := hf
      exact absurd hip (by simpa using hfind p hp)
    · simp [classifyOutcome, is_orca_definitely_complete, h, hfind, outcomeOfTuple]
  · intro h hf hr
    have hfind : fatal_patterns.find? (fun p => icontains t p) = none := by
      rw [List.find?_eq_none]; intro p hp
      simp only [List.any_eq_false] at hf
      simpa using hf p hp
    rcases hrfind : recoverable_patterns.find? (fun p => icontains t p) with _ | p
    · rw [List.find?_eq_none] at hrfind
      rw [List.any_eq_true] at hr
      obtain ⟨p, hp, hip⟩ := hr
      exact absurd hip (by simpa using hrfind p hp)
    · simp [classifyOutcome, is_orca_definitely_complete, h, hfind, hrfind, outcomeOfTuple]
  · intro h hf hr he
    have hfind : fatal_patterns.find? (fun p => icontains t p) = none := by
      rw [List.find?_eq_none]; intro p hp
      simp only [List.any_eq_false] at hf
      simpa using hf p hp
    have hrfind : recoverable_patterns.find? (fun p => icontains t p) = none := by
      rw [List.find?_eq_none]; intro p hp
      simp only [List.any_eq_false] at hr
      simpa using hr p hp
    constructor
    · simp [classifyOutcome, is_orca_definitely_complete, h, hfind, hrfind, he, outcomeOfTuple]
    · simp [is_orca_definitely_complete, h, hfind, hrfind, he]
  · intro h hf hr he
    have hfind : fatal_patterns.find? (fun p => icontains t p) = none := by
      rw [List.find?_eq_none]; intro p hp
      simp only [List.any_eq_false] at hf
      simpa using hf p hp
    have hrfind : recoverable_patterns.find? (fun p => icontains t p) = none := by
      rw [List.find?_eq_none]; intro p hp
      simp only [List.any_eq_false] at hr
      simpa using hr p hp
    simp [classifyOutcome, is_orca_definitely_complete, h, hfind, hrfind, he, outcomeOfTuple]

/-- Witness for C1 at concrete texts: the marker beats a fatal pattern,
each rule fires, and the empty text is incomplete. -/
theorem C1_witness :
    classifyOutcome "x ORCA TERMINATED NORMALLY x Unknown basis set".data = .success ∧
    classifyOutcome "Unknown basis set".data = .fatal ∧
    classifyOutcome "scf not converged".data = .recoverable ∧
    classifyOutcome "an Error occurred".data = .recoverable ∧
    classifyOutcome "nothing to see".data = .incomplete ∧
    classifyOutcome [] = .incomplete :=
  ⟨(C1_classifier_first_match_total _).1 (by decide),
   (C1_classifier_first_match_total _).2.1 (by decide) (by decide),
   (C1_classifier_first_match_total _).2.2.1 (by decide) (by decide) (by decide),
   ((C1_classifier_first_match_total _).2.2.2.1 (by decide) (by decide) (by decide)
     (by decide)).1,
   (C1_classifier_first_match_total _).2.2.2.2.1 (by decide) (by decide) (by decide)
     (by decide),
   (C1_classifier_first_match_total []).2.2.2.2.2.1⟩

/-! ## C7 — primary-output resolution -/

/-- C7 counterexample: `pathlib.Path.glob` yields directory-enumeration
order, not alphabetical order, so on a directory enumerated as
`["b.out", "a.out"]` the resolver returns `b.out` while the claim's
alphabetically-first rule demands `a.out`. -/
theorem C7_counterexample :
    resolve_primary_output ["b.out", "a.out"] "s" = some "b.out" ∧
    resolveSpecAlphabetical ["b.out", "a.out"] "s" = some "a.out" ∧
    resolve_primary_output ["b.out", "a.out"] "s" ≠
      resolveSpecAlphabetical ["b.out", "a.out"] "s" := by
  refine ⟨by decide, by decide, by decide⟩

theorem resolver_named_first (listing : List String) (stem : String)
    (h1 : stem ++ ".out" ∈ listing) :
    resolve_primary_output listing stem = some (stem ++ ".out") := by
  simp [resolve_primary_output, List.find?, h1]

theorem resolver_named_second (listing : List String) (stem : String)
    (h1 : stem ++ ".out" ∉ listing) (h2 : stem ++ "_orca.log" ∈ listing) :
    resolve_primary_output listing stem = some (stem ++ "_orca.log") := by
  simp [resolve_primary_output, List.find?, h1, h2]

theorem resolver_named_third (listing : List String) (stem : String)
    (h1 : stem ++ ".out" ∉ listing) (h2 : stem ++ "_orca.log" ∉ listing)
    (h3 : stem ++ ".log" ∈ listing) :
    resolve_primary_output listing stem = some (stem ++ ".log") := by
  simp [resolve_primary_output, List.find?, h1, h2, h3]

theorem resolver_fallback (listing : List String) (stem : String)
    (h1 : stem ++ ".out" ∉ listing) (h2 : stem ++ "_orca.log" ∉ listing)
    (h3 : stem ++ ".log" ∉ listing) :
    resolve_primary_output listing stem =
      (listing.filter (globStarMatch ".out") ++
       listing.filter (globStarMatch "_orca.log") ++
       listing.filter (globStarMatch ".log")).head? := by
  simp [resolve_primary_output, List.find?, h1, h2, h3]

/-- C7 amended: the resolver returns `D/S.out` if it exists, else
`D/S_orca.log`, else `D/S.log`, else the first file in directory
enumeration order matching `*.out`, then `*_orca.log`, then `*.log`
(alphabetical only when the enumeration happens to be sorted), and `none`
exactly when no candidate exists. -/
theorem C7_resolver_order (listing : List String) (stem : String) :
    (stem ++ ".out" ∈ listing →
      resolve_primary_output listing stem = some (stem ++ ".out")) ∧
    (stem ++ ".out" ∉ listing → stem ++ "_orca.log" ∈ listing →
      resolve_primary_output listing stem = some (stem ++ "_orca.log")) ∧
    (stem ++ ".out" ∉ listing → stem ++ "_orca.log" ∉ listing →
     stem ++ ".log" ∈ listing →
      resolve_primary_output listing stem = some (stem ++ ".log")) ∧
    (stem ++ ".out" ∉ listing → stem ++ "_orca.log" ∉ listing →
     stem ++ ".log" ∉ listing →
      resolve_primary_output listing stem =
        (listing.filter (globStarMatch ".out") ++
         listing.filter (globStarMatch "_orca.log") ++
         listing.filter (globStarMatch ".log")).head?) ∧
    (resolve_primary_output listing stem = none ↔
      (stem ++ ".out" ∉ listing ∧ stem ++ "_orca.log" ∉ listing ∧
       stem ++ ".log" ∉ listing ∧
       (∀ x ∈ listing, globStarMatch ".out" x = false) ∧
       (∀ x ∈ listing, globStarMatch "_orca.log" x = false) ∧
       (∀ x ∈ listing, globStarMatch ".log" x = false))) := by
  refine ⟨resolver_named_first listing stem, resolver_named_second listing stem,
    resolver_named_third listing stem, resolver_fallback listing stem, ?_, ?_⟩
  · intro h
    by_cases h1 : stem ++ ".out" ∈ listing
    · rw [resolver_named_first listing stem h1] at h; cases h
    by_cases h2 : stem ++ "_orca.log" ∈ listing
    · rw [resolver_named_second listing stem h1 h2] at h; cases h
    by_cases h3 : stem ++ ".log" ∈ listing
    · rw [resolver_named_third listing stem h1 h2 h3] at h; cases h
    rw [resolver_fallback listing stem h1 h2 h3] at h
    have hnil := List.head?_eq_none_iff.mp h
    simp only [List.append_eq_nil] at hnil
    obtain ⟨⟨f1, f2⟩, f3⟩ := hnil
    refine ⟨h1, h2, h3, ?_, ?_, ?_⟩ <;>
      · intro x hx
        by_contra hc
        simp only [Bool.not_eq_false] at hc
        have hmem := List.mem_filter.mpr ⟨hx, hc⟩
        first
        | (rw [f1] at hmem; cases hmem)
        | (rw [f2] at hmem; cases hmem)
        | (rw [f3] at hmem; cases hmem)
  · rintro ⟨h1, h2, h3, e1, e2, e3⟩
    rw [resolver_fallback listing stem h1 h2 h3]
    have f1 : listing.filter (globStarMatch ".out") = [] :=
      List.filter_eq_nil_iff.mpr (by intro x hx; simp [e1 x hx])
    have f2 : listing.filter (globStarMatch "_orca.log") = [] :=
      List.filter_eq_nil_iff.mpr (by intro x hx; simp [e2 x hx])
    have f3 : listing.filter (globStarMatch ".log") = [] :=
      List.filter_eq_nil_iff.mpr (by intro x hx; simp [e3 x hx])
    simp [f1, f2, f3]

/-- Witness for C7 at a concrete directory: named candidate first, then
fallback classes in enumeration order, and `none` when empty. -/
theorem C7_witness :
    resolve_primary_output ["x.gbw", "s.out"] "s" = some "s.out" ∧
    resolve_primary_output ["c.log", "b_orca.log"] "s" = some "b_orca.log" ∧
    resolve_primary_output [] "s" = none :=
  ⟨(C7_resolver_order ["x.gbw", "s.out"] "s").1 (by decide),
   by
    have h := (C7_resolver_order ["c.log", "b_orca.log"] "s").2.2.2.1
      (by decide) (by decide) (by decide)
    simpa using h,
   ((C7_resolver_order [] "s").2.2.2.2).mpr (by decide)⟩

/-! ## C8 — safe read with backoff -/

theorem sleepShift (backoff j : Nat) :
    (List.range (j + 1)).map (fun i => backoff * 2 ^ i) =
      backoff :: (List.range j).map (fun i => backoff * 2 * 2 ^ i) := by
  rw [List.range_succ_eq_map, List.map_cons, List.map_map]
  refine congrArg₂ List.cons (by simp) ?_
  apply List.map_congr_left
  intro i _
  simp only [Function.comp_apply, pow_succ]
  ring

theorem readLoop_success (file : Nat → PyErr ⊕ List Nat) (retryOn : PyErr → Bool)
    (mode : DecodeMode) :
    ∀ (j k r backoff : Nat) (bytes : List Nat), j < r →
    (∀ i, i < j → isRetryAttempt retryOn (file (k + i)) = true) →
    file (k + j) = .inr bytes →
    readLoop file retryOn mode k r backoff =
      (.success (decodeUtf8 mode bytes),
       (List.range j).map (fun i => backoff * 2 ^ i)) := by
  intro j
  induction j with
  | zero =>
    intro k r backoff bytes hlt hprev hok
    cases r with
    | zero => omega
    | succ r' =>
      rw [Nat.add_zero] at hok
      simp [readLoop, hok]
  | succ j ih =>
    intro k r backoff bytes hlt hprev hok
    cases r with
    | zero => omega
    | succ r' =>
      have h0 := hprev 0 (by omega)
      rcases hf : file (k + 0) with e | bs
      case inr => rw [hf] at h0; cases h0
      rw [hf] at h0
      have hr' : r' ≠ 0 := by omega
      rw [Nat.add_zero] at hf
      have hrec := ih (k + 1) r' (backoff * 2) bytes (by omega)
        (fun i hi => by
          have := hprev (i + 1) (by omega)
          simpa [Nat.add_assoc, Nat.add_comm 1 i] using this)
        (by
          have : k + 1 + j = k + (j + 1) := by omega
          rw [this]; exact hok)
      simp only [readLoop, hf, isRetryAttempt] at h0 ⊢
      rw [h0]
      simp only [if_true, hr', if_neg hr', hrec]
      rw [sleepShift]
      simp

theorem readLoop_raised (file : Nat → PyErr ⊕ List Nat) (retryOn : PyErr → Bool)
    (mode : DecodeMode) :
    ∀ (j k r backoff : Nat) (e : PyErr), j < r →
    (∀ i, i < j → isRetryAttempt retryOn (file (k + i)) = true) →
    file (k + j) = .inl e → retryOn e = false →
    readLoop file retryOn mode k r backoff =
      (.raised e, (List.range j).map (fun i => backoff * 2 ^ i)) := by
  intro j
  induction j with
  | zero =>
    intro k r backoff e hlt hprev hok hnr
    cases r with
    | zero => omega
    | succ r' =>
      rw [Nat.add_zero] at hok
      simp [readLoop, hok, hnr]
  | succ j ih =>
    intro k r backoff e hlt hprev hok hnr
    cases r with
    | zero => omega
    | succ r' =>
      have h0 := hprev 0 (by omega)
      rcases hf : file (k + 0) with e0 | bs
      case inr => rw [hf] at h0; cases h0
      rw [hf] at h0
      have hr' : r' ≠ 0 := by omega
      rw [Nat.add_zero] at hf
      have hrec := ih (k + 1) r' (backoff * 2) e (by omega)
        (fun i hi => by
          have := hprev (i + 1) (by omega)
          simpa [Nat.add_assoc, Nat.add_comm 1 i] using this)
        (by
          have : k + 1 + j = k + (j + 1) := by omega
          rw [this]; exact hok)
        hnr
      simp only [readLoop, hf, isRetryAttempt] at h0 ⊢
      rw [h0]
      simp only [if_true, hr', if_neg hr', hrec]
      rw [sleepShift]
      simp

theorem readLoop_exhaust (file : Nat → PyErr ⊕ List Nat) (retryOn : PyErr → Bool)
    (mode : DecodeMode) :
    ∀ (r k backoff : Nat),
    (∀ i, i < r → isRetryAttempt retryOn (file (k + i)) = true) →
    readLoop file retryOn mode k r backoff =
      (.failure, (List.range (r - 1)).map (fun i => backoff * 2 ^ i)) := by
  intro r
  induction r with
  | zero => intro k backoff _; simp [readLoop]
  | succ r' ih =>
    intro k backoff hall
    have h0 := hall 0 (by omega)
    rcases hf : file (k + 0) with e0 | bs
    case inr => rw [hf] at h0; cases h0
    rw [hf] at h0
    rw [Nat.add_zero] at hf
    cases hr' : decide (r' = 0) with
    | true =>
      have : r' = 0 := by simpa using hr'
      subst this
      simp [readLoop, hf, isRetryAttempt] at h0 ⊢
      simp [h0]
    | false =>
      have hne : r' ≠ 0 := by simpa using hr'
      have hrec := ih (k + 1) (backoff * 2)
        (fun i hi => by
          have := hall (i + 1) (by omega)
          simpa [Nat.add_assoc, Nat.add_comm 1 i] using this)
      simp only [readLoop, hf, isRetryAttempt] at h0 ⊢
      rw [h0]
      simp only [if_true, if_neg hne, hrec]
      have : r' - 1 + 1 = r' := by omega
      rw [Nat.succ_sub_one, ← this, sleepShift, this]

/-- C8 counterexample: the source retries every `OSError` — here a
`FileNotFoundError`, which is not of the permission-denied/busy family —
and decodes with `errors='ignore'`, so the stray byte `0xFF` is dropped;
under the claim's behaviour the first attempt would abort and a read byte
`0xFF` would decode to U+FFFD. -/
theorem C8_counterexample :
    safe_read_text (fun k => if k = 0 then .inl .fileNotFoundError
      else .inr [0xFF]) = (.success [], [100]) ∧
    safeReadSpecClaim (fun k => if k = 0 then .inl .fileNotFoundError
      else .inr [0xFF]) = (.raised .fileNotFoundError, []) ∧
    safe_read_text (fun k => if k = 0 then .inl .fileNotFoundError
      else .inr [0xFF]) ≠
      safeReadSpecClaim (fun k => if k = 0 then .inl .fileNotFoundError
        else .inr [0xFF]) :=
  ⟨by decide, by decide, by decide⟩

/-- C8 amended: the safe read makes at most 5 attempts, sleeping 100 ms
before the second attempt and doubling the delay before each subsequent
attempt; every error of the `OSError` family (not only the
permission-denied/busy members) is retried, while a non-`OSError` error
propagates immediately with no further attempts; the file is decoded as
UTF-8 with invalid bytes dropped (`errors='ignore'`), not replaced. -/
theorem C8_safe_read_retry (file : Nat → PyErr ⊕ List Nat) :
    (∀ k bytes, k < 5 →
      (∀ i, i < k → isRetryAttempt isOSErrorFamily (file i) = true) →
      file k = .inr bytes →
      safe_read_text file =
        (.success (decodeUtf8 .ignore bytes),
         (List.range k).map (fun i => 100 * 2 ^ i))) ∧
    (∀ k e, k < 5 →
      (∀ i, i < k → isRetryAttempt isOSErrorFamily (file i) = true) →
      file k = .inl e → isOSErrorFamily e = false →
      safe_read_text file =
        (.raised e, (List.range k).map (fun i => 100 * 2 ^ i))) ∧
    ((∀ i, i < 5 → isRetryAttempt isOSErrorFamily (file i) = true) →
      safe_read_text file = (.failure, [100, 200, 400, 800])) ∧
    decodeUtf8 .ignore [0xFF] = [] ∧
    decodeUtf8 .replace [0xFF] = [replacementChar] := by
  refine ⟨?_, ?_, ?_, by decide, by decide⟩
  · intro k bytes hk hprev hok
    exact readLoop_success file isOSErrorFamily .ignore k 0 5 100 bytes hk
      (fun i hi => by simpa using hprev i hi) (by simpa using hok)
  · intro k e hk hprev hok hnf
    exact readLoop_raised file isOSErrorFamily .ignore k 0 5 100 e hk
      (fun i hi => by simpa using hprev i hi) (by simpa using hok) hnf
  · intro hall
    have h := readLoop_exhaust file isOSErrorFamily .ignore 5 0 100
      (fun i hi => by simpa using hall i hi)
    rw [safe_read_text, h]
    decide

/-- Witness for C8: two permission errors, then a successful read. -/
theorem C8_witness :
    safe_read_text (fun k => if k < 2 then .inl .permissionError
      else .inr [72, 105]) = (.success "Hi".data, [100, 200]) := by
  have h := (C8_safe_read_retry (fun k => if k < 2 then .inl .permissionError
      else .inr [72, 105])).1 2 [72, 105] (by omega) (by decide) (by decide)
  simpa using h

/-! ## C9 — solvent keyword in synthesized frequency decks -/

theorem toNat_pyLowerChar (c : Char) :
    (pyLowerChar c).toNat =
      if 65 ≤ c.toNat ∧ c.toNat ≤ 90 then c.toNat + 32 else c.toNat := by
  unfold pyLowerChar
  by_cases hc : 65 ≤ c.toNat ∧ c.toNat ≤ 90
  · have hb : ('A' ≤ c && c ≤ 'Z') = true := by
      rw [Bool.and_eq_true, decide_eq_true_eq, decide_eq_true_eq,
        char_le_iff, char_le_iff]
      exact ⟨hc.1, hc.2⟩
    rw [if_pos hb, if_pos hc]
    exact toNat_ofNat_valid (Or.inl (by omega))
  · have hb : ('A' ≤ c && c ≤ 'Z') = false := by
      rw [Bool.and_eq_false_iff]
      rcases Nat.lt_or_ge c.toNat 65 with h | h
      · left; rw [decide_eq_false_iff_not, char_le_iff]
        have hA : ('A' : Char).toNat = 65 := rfl
        omega
      · right; rw [decide_eq_false_iff_not, char_le_iff]
        have hZ : ('Z' : Char).toNat = 90 := rfl
        omega
    rw [if_neg (by simp [hb]), if_neg hc]

theorem toNat_pyUpperChar (c : Char) :
    (pyUpperChar c).toNat =
      if 97 ≤ c.toNat ∧ c.toNat ≤ 122 then c.toNat - 32 else c.toNat := by
  unfold pyUpperChar
  by_cases hc : 97 ≤ c.toNat ∧ c.toNat ≤ 122
  · have hb : ('a' ≤ c && c ≤ 'z') = true := by
      rw [Bool.and_eq_true, decide_eq_true_eq, decide_eq_true_eq,
        char_le_iff, char_le_iff]
      exact ⟨hc.1, hc.2⟩
    rw [if_pos hb, if_pos hc]
    exact toNat_ofNat_valid (Or.inl (by omega))
  · have hb : ('a' ≤ c && c ≤ 'z') = false := by
      rw [Bool.and_eq_false_iff]
      rcases Nat.lt_or_ge c.toNat 97 with h | h
      · left; rw [decide_eq_false_iff_not, char_le_iff]
        have ha : ('a' : Char).toNat = 97 := rfl
        omega
      · right; rw [decide_eq_false_iff_not, char_le_iff]
        have hz : ('z' : Char).toNat = 122 := rfl
        omega
    rw [if_neg (by simp [hb]), if_neg hc]

/-- Lower-upper-lower round trip on one character. -/
theorem pyLowerChar_round (c : Char) :
    pyLowerChar (pyUpperChar (pyLowerChar c)) = pyLowerChar c := by
  apply charEq_of_toNat
  rw [toNat_pyLowerChar (pyUpperChar (pyLowerChar c)),
    toNat_pyUpperChar (pyLowerChar c), toNat_pyLowerChar c]
  split_ifs <;> omega

/-- Lower-upper-lower round trip on a string. -/
theorem pyLower_pyUpper_pyLower (l : List Char) :
    pyLower (pyUpper (pyLower l)) = pyLower l := by
  unfold pyLower pyUpper
  rw [List.map_map, List.map_map]
  apply List.map_congr_left
  intro x _
  exact pyLowerChar_round x

/-- The solvent guard holds exactly when the stripped, lower-cased model
string is one of `cpcm`, `smd`, `cosmo` — so matching is
case-insensitive, and the model `none` never qualifies. -/
theorem solventCond_iff (model : List Char) :
    solventCond model = true ↔
      pyLower (pyStrip model) ∈
        [("cpcm".data : List Char), "smd".data, "cosmo".data] := by
  constructor
  · intro h
    unfold solventCond at h
    rw [Bool.and_eq_true] at h
    obtain ⟨hne, hmem⟩ := h
    have hmem2 : pyUpper (pyLower (pyStrip model)) ∈
        [("CPCM".data : List Char), "SMD".data, "COSMO".data] := by
      simpa using hmem
    simp only [List.mem_cons, List.not_mem_nil, or_false] at hmem2 ⊢
    rcases hmem2 with h2 | h2 | h2
    · left
      have := congrArg pyLower h2
      rw [pyLower_pyUpper_pyLower] at this
      simpa using this
    · right; left
      have := congrArg pyLower h2
      rw [pyLower_pyUpper_pyLower] at this
      simpa using this
    · right; right
      have := congrArg pyLower h2
      rw [pyLower_pyUpper_pyLower] at this
      simpa using this
  · intro h
    simp only [List.mem_cons, List.not_mem_nil, or_false] at h
    unfold solventCond
    rcases h with h | h | h <;> rw [h] <;> decide

/-- C9 counterexample: with model `cpcm` and solvent `water` the
synthesized frequency deck's header line carries
` CPCM(Solvent=Water)` — the form `CPCM(Water)` the claim specifies
appears nowhere in the deck. -/
theorem C9_counterexample :
    makeFreqFirstLine
      { method := "B3LYP".data, basis_set := "def2-SVP".data,
        charge := "0".data, multiplicity := "1".data, nprocs := "4".data,
        maxcore := "2000".data, solvent_model := "cpcm".data,
        solvent_name := "water".data, extra_keywords := [] } =
      "! B3LYP def2-SVP Freq CPCM(Solvent=Water)".data ∧
    containsSub (make_freq_inp
      { method := "B3LYP".data, basis_set := "def2-SVP".data,
        charge := "0".data, multiplicity := "1".data, nprocs := "4".data,
        maxcore := "2000".data, solvent_model := "cpcm".data,
        solvent_name := "water".data, extra_keywords := [] }
      "H 0.0 0.0 0.0".data) "CPCM(Water)".data = false ∧
    containsSub (make_freq_inp
      { method := "B3LYP".data, basis_set := "def2-SVP".data,
        charge := "0".data, multiplicity := "1".data, nprocs := "4".data,
        maxcore := "2000".data, solvent_model := "cpcm".data,
        solvent_name := "water".data, extra_keywords := [] }
      "H 0.0 0.0 0.0".data) "CPCM(Solvent=Water)".data = true :=
  ⟨by decide, by decide, by decide⟩

/-- C9 amended: in every synthesized frequency deck the solvent keyword
appears on the header keyword line iff the stripped configured model is
one of CPCM, SMD, COSMO case-insensitively (never for `none`), and when
it appears it has exactly the form `MODEL(Solvent=SolventName)` — the
model upper-cased and the solvent name capitalized, with the solvent name
prefixed by `Solvent=` inside the parentheses. -/
theorem C9_solvent_keyword (cfg : OrcaConfig) (xyzBlock : List Char) :
    (freqSolventKw cfg = [] ↔ solventCond cfg.solvent_model = false) ∧
    (solventCond cfg.solvent_model = true →
      freqSolventKw cfg =
        " ".data ++ pyUpper (pyLower (pyStrip cfg.solvent_model)) ++
        "(Solvent=".data ++ pyCapitalize (pyStrip cfg.solvent_name) ++
        ")".data) ∧
    (solventCond cfg.solvent_model = true ↔
      pyLower (pyStrip cfg.solvent_model) ∈
        [("cpcm".data : List Char), "smd".data, "cosmo".data]) ∧
    makeFreqFirstLine cfg =
      "! ".data ++ cfg.method ++ " ".data ++ cfg.basis_set ++ " Freq".data ++
        freqSolventKw cfg ++
        (if (pyStrip cfg.extra_keywords).isEmpty then []
         else " ".data ++ pyStrip cfg.extra_keywords) ∧
    make_freq_inp cfg xyzBlock =
      makeFreqFirstLine cfg ++ "\n\n".data ++ "%pal nprocs ".data ++
      cfg.nprocs ++ " end\n".data ++ "%maxcore ".data ++ cfg.maxcore ++
      "\n\n".data ++ "* xyz ".data ++ cfg.charge ++ " ".data ++
      cfg.multiplicity ++ "\n".data ++ xyzBlock ++ "\n".data ++ "*\n".data := by
  refine ⟨?_, ?_, solventCond_iff cfg.solvent_model, ?_, ?_⟩
  · unfold freqSolventKw
    rcases h : solventCond cfg.solvent_model with _ | _
    · simp [h]
    · simp [h]
  · intro h
    unfold freqSolventKw
    rw [if_pos h]
  · unfold makeFreqFirstLine
    rcases h : (pyStrip cfg.extra_keywords).isEmpty with _ | _
    · simp [h, List.append_assoc]
    · simp [h, List.append_assoc]
  · unfold make_freq_inp
    simp [List.append_assoc]

/-- Witness for C9: a configuration with model `CpCm` (mixed case)
produces the keyword, upper-cased with `Solvent=` and a capitalized
name; model `none` produces none. -/
theorem C9_witness :
    freqSolventKw
      { method := "M".data, basis_set := "B".data, charge := "0".data,
        multiplicity := "1".data, nprocs := "1".data, maxcore := "1".data,
        solvent_model := " CpCm ".data, solvent_name := "toLUene".data,
        extra_keywords := [] } = " CPCM(Solvent=Toluene)".data ∧
    freqSolventKw
      { method := "M".data, basis_set := "B".data, charge := "0".data,
        multiplicity := "1".data, nprocs := "1".data, maxcore := "1".data,
        solvent_model := "none".data, solvent_name := "water".data,
        extra_keywords := [] } = [] := by
  constructor
  · have h := (C9_solvent_keyword
      { method := "M".data, basis_set := "B".data, charge := "0".data,
        multiplicity := "1".data, nprocs := "1".data, maxcore := "1".data,
        solvent_model := " CpCm ".data, solvent_name := "toLUene".data,
        extra_keywords := [] } []).2.1 (by decide)
    rw [h]
    decide
  · have h := ((C9_solvent_keyword
      { method := "M".data, basis_set := "B".data, charge := "0".data,
        multiplicity := "1".data, nprocs := "1".data, maxcore := "1".data,
        solvent_model := "none".data, solvent_name := "water".data,
        extra_keywords := [] } []).1).mpr (by decide)
    exact h

/-! ## C6 — opt→freq chaining and coordinate extraction -/

theorem keepCoordLine_eq_claim (ln : List Char) :
    keepCoordLine ln =
      (if claimKeepsLine ln && 4 ≤ (pySplit ln).length
       then some (emitCoord (pySplit ln)) else none) := by
  unfold keepCoordLine claimKeepsLine
  rcases h1 : decide (4 ≤ (pySplit ln).length) with _ | _ <;>
    rcases h2 : pyIsAlpha ((pySplit ln).head?.getD []) with _ | _ <;>
    rcases h3 : pyFloatAccepts ((pySplit ln).getLast?.getD []) with _ | _ <;>
    simp [h1, h2, h3]

/-- C6 counterexample: the line `H 1.0` satisfies the claim's keeping
criterion (first field alphabetic, last field a float), yet the source
drops it for having fewer than four fields; on an optimization output
whose final coordinate block contains only such lines, extraction yields
nothing and no frequency job is chained even though the attempt
succeeded. -/
theorem C6_counterexample :
    claimKeepsLine "H 1.0".data = true ∧
    extract_final_xyz
      "ORCA TERMINATED NORMALLY\nCARTESIAN COORDINATES (ANGSTROEM)\nH 1.0\n\n".data
      = none ∧
    ((workerStep 2 {} jobOptA "wd" .success
        (some "ORCA TERMINATED NORMALLY\nCARTESIAN COORDINATES (ANGSTROEM)\nH 1.0\n\n".data)
        0).1).queue = [] :=
  ⟨by decide, by decide, by decide⟩

/-- C6 amended: for every optimize job whose attempt succeeds, the
scheduler chains a follow-up frequency job provided the archived
optimization output is found and its last
`CARTESIAN COORDINATES (ANGSTROEM)` block yields coordinates, where
exactly the lines with at least four whitespace-delimited fields whose
first field is alphabetic and whose final field parses as a float are
kept (emitting the element with the last three fields); the deck is
written at `waiting/{molecule}_freq.inp` disambiguated on collision and
the job is submitted with kind frequency; when extraction fails no job
is chained. -/
theorem C6_chain_on_success (t : List Char) (maxR : Nat) (s : SchedState)
    (j : JobV) (wd : String) (text : List Char) (nonce : Nat) :
    extractSpecFixed t = extract_final_xyz t ∧
    (j.job_type = "opt" →
      ∀ block, extract_final_xyz text = some block →
      ((workerStep maxR s j wd .success (some text) nonce).1).queue =
        s.queue ++ [chainedFreqJob s.waiting j.inp_stem nonce] ∧
      ((workerStep maxR s j wd .success (some text) nonce).1).waiting =
        s.waiting ++ [uniquePathN s.waiting
          (moleculeName j.inp_stem ++ "_freq.inp")]) ∧
    (j.job_type = "opt" →
      extract_final_xyz text = none →
      ((workerStep maxR s j wd .success (some text) nonce).1).queue =
        s.queue ∧
      ((workerStep maxR s j wd .success (some text) nonce).1).waiting =
        s.waiting) := by
  refine ⟨?_, ?_, ?_⟩
  · unfold extractSpecFixed extract_final_xyz
    cases h : (orcaBlocks t).getLast? with
    | none => rfl
    | some lastBlock =>
      have hfun : (fun ln => let parts := pySplit ln;
          if claimKeepsLine ln && 4 ≤ parts.length
          then some (emitCoord parts) else none) = keepCoordLine :=
        funext fun ln => (keepCoordLine_eq_claim ln).symm
      rw [hfun]
  · intro hjt block hex
    simp [workerStep, chainJobOf, chainedFreqJob, hjt, hex]
  · intro hjt hex
    simp [workerStep, chainJobOf, hjt, hex]

/-- Witness for C6: a successful optimization with a two-atom coordinate
block chains a frequency job whose deck is `waiting/m_freq.inp`. -/
theorem C6_witness :
    ((workerStep 2 {} jobOptA "wd" .success
        (some "CARTESIAN COORDINATES (ANGSTROEM)\nC 0.0 0.0 0.0\nH 1.0 0.0 0.0\n\n".data)
        0).1).queue =
      [chainedFreqJob [] "m_opt" 0] := by
  have h := (C6_chain_on_success [] 2 {} jobOptA "wd"
      "CARTESIAN COORDINATES (ANGSTROEM)\nC 0.0 0.0 0.0\nH 1.0 0.0 0.0\n\n".data
      0).2.1 rfl "C 0.0 0.0 0.0\nH 1.0 0.0 0.0".data (by decide)
  rw [h.1]
  rfl

/-! ## C2 — retry policy for incomplete attempts -/

theorem workerStep_initial_queue (maxR : Nat) (j : JobV) (oc : Outcome) :
    ((workerStep maxR {} j "wd" oc none 0).1).queue =
      (if oc = .incomplete ∧ j.retries < maxR
       then [{ j with retries := j.retries + 1 }] else []) := by
  cases oc <;> simp [workerStep, chainJobOf]

theorem attemptsFrom_le (maxR : Nat) :
    ∀ (ocs : List Outcome) (j : JobV),
    attemptsFrom maxR j ocs ≤ (maxR - j.retries) + 1 := by
  intro ocs
  induction ocs with
  | nil => intro j; simp [attemptsFrom]
  | cons oc rest ih =>
    intro j
    rw [attemptsFrom, workerStep_initial_queue]
    by_cases h : oc = .incomplete ∧ j.retries < maxR
    · rw [if_pos h]
      have hm : (match [{ j with retries := j.retries + 1 }] with
          | [] => 1
          | j' :: _ => 1 + attemptsFrom maxR j' rest) =
            1 + attemptsFrom maxR { j with retries := j.retries + 1 } rest := rfl
      rw [hm]
      have hr : attemptsFrom maxR { j with retries := j.retries + 1 } rest ≤
          maxR - (j.retries + 1) + 1 := by
        simpa using ih { j with retries := j.retries + 1 }
      omega
    · rw [if_neg h]
      have hm : (match ([] : List JobV) with
          | [] => 1
          | j' :: _ => 1 + attemptsFrom maxR j' rest) = 1 := rfl
      rw [hm]
      omega

/-- C2: an attempt classified incomplete with `retries < max_retries`
re-submits the job with `retries + 1`, appends no completed record, and
still archives under a failed tag; with `retries ≥ max_retries` it is
recorded completed as a recoverable failure; with `max_retries = 0` no
retry ever happens, and in general a job runs at most
`max_retries + 1` attempts. -/
theorem C2_incomplete_retry (maxR : Nat) (s : SchedState) (j : JobV)
    (wd : String) (ctx : Option (List Char)) (nonce : Nat) :
    (j.retries < maxR →
      ((workerStep maxR s j wd .incomplete ctx nonce).1).queue =
        s.queue ++ [{ j with retries := j.retries + 1 }] ∧
      ((workerStep maxR s j wd .incomplete ctx nonce).1).store.queued =
        storeEnqueue (storeDequeue s.store.queued j.job_id)
          { j with retries := j.retries + 1 } ∧
      ((workerStep maxR s j wd .incomplete ctx nonce).1).store.completed =
        s.store.completed ∧
      ((workerStep maxR s j wd .incomplete ctx nonce).1).archives =
        s.archives ++ [(j.job_id, j.job_type ++ "_failed")] ∧
      (workerStep maxR s j wd .incomplete ctx nonce).2 = false) ∧
    (maxR ≤ j.retries →
      ((workerStep maxR s j wd .incomplete ctx nonce).1).queue = s.queue ∧
      ((workerStep maxR s j wd .incomplete ctx nonce).1).store.completed =
        s.store.completed ++ [j] ∧
      ((workerStep maxR s j wd .incomplete ctx nonce).1).archives =
        s.archives ++ [(j.job_id, j.job_type ++ "_failed")] ∧
      (workerStep maxR s j wd .incomplete ctx nonce).2 = false) ∧
    (∀ ocs, attemptsFrom maxR j ocs ≤ (maxR - j.retries) + 1) ∧
    (∀ j0 : JobV, j0.retries = 0 → ∀ ocs,
      attemptsFrom maxR j0 ocs ≤ maxR + 1) ∧
    (∀ (j0 : JobV) (oc : Outcome) (rest : List Outcome),
      attemptsFrom 0 j0 (oc :: rest) = 1) := by
  refine ⟨?_, ?_, fun ocs => attemptsFrom_le maxR ocs j, ?_, ?_⟩
  · intro h
    refine ⟨?_, ?_, ?_, ?_, ?_⟩ <;>
      simp [workerStep, workerMuts, workerBranchMuts, applyMuts, applyMut,
        archiveTag, h]
  · intro h
    have hn : ¬ j.retries < maxR := by omega
    refine ⟨?_, ?_, ?_, ?_⟩ <;>
      simp [workerStep, workerMuts, workerBranchMuts, applyMuts, applyMut,
        archiveTag, storeAppendCompleted, hn]
  · intro j0 h0 ocs
    have := attemptsFrom_le maxR ocs j0
    omega
  · intro j0 oc rest
    rw [attemptsFrom, workerStep_initial_queue]
    have h : ¬ (oc = .incomplete ∧ j0.retries < 0) := by
      rintro ⟨_, h2⟩; omega
    rw [if_neg h]

/-- Witness for C2: with `max_retries = 2` an incomplete attempt at
`retries = 0` is re-queued with `retries = 1`; with `max_retries = 0` a
single attempt is made; four incomplete outcomes yield three attempts. -/
theorem C2_witness :
    ((workerStep 2 {} jobOptA "wd" .incomplete none 0).1).queue =
      [{ jobOptA with retries := 1 }] ∧
    attemptsFrom 0 jobOptA [.incomplete, .incomplete] = 1 ∧
    attemptsFrom 2 jobOptA [.incomplete, .incomplete, .incomplete, .incomplete] ≤ 3 := by
  refine ⟨?_, ?_, ?_⟩
  · have h := (C2_incomplete_retry 2 {} jobOptA "wd" none 0).1 (by decide)
    simpa using h.1
  · exact (C2_incomplete_retry 0 {} jobOptA "wd" none 0).2.2.2.2 jobOptA
      .incomplete [.incomplete]
  · exact (C2_incomplete_retry 2 {} jobOptA "wd" none 0).2.2.2.1 jobOptA rfl _

/-! ## C3 — fatal outcomes halt the pipeline -/

/-- C3: a fatal attempt sets the fatal flag (and `has_fatal_error` then
stays true across any further worker step or submission), sends exactly
one error notification, appends the job to both completed lists, archives
under a fatal tag, chains no follow-up job, and makes the worker exit. -/
theorem C3_fatal_stops (maxR : Nat) (s : SchedState) (j : JobV) (wd : String)
    (ctx : Option (List Char)) (nonce : Nat) :
    ((workerStep maxR s j wd .fatal ctx nonce).1).fatalSeen = true ∧
    has_fatal_error ((workerStep maxR s j wd .fatal ctx nonce).1) = true ∧
    ((workerStep maxR s j wd .fatal ctx nonce).1).sentErrors =
      s.sentErrors + 1 ∧
    ((workerStep maxR s j wd .fatal ctx nonce).1).completedMem =
      s.completedMem ++ [j] ∧
    ((workerStep maxR s j wd .fatal ctx nonce).1).store.completed =
      s.store.completed ++ [j] ∧
    ((workerStep maxR s j wd .fatal ctx nonce).1).archives =
      s.archives ++ [(j.job_id, j.job_type ++ "_fatal")] ∧
    ((workerStep maxR s j wd .fatal ctx nonce).1).queue = s.queue ∧
    ((workerStep maxR s j wd .fatal ctx nonce).1).waiting = s.waiting ∧
    (workerStep maxR s j wd .fatal ctx nonce).2 = true ∧
    (∀ (s2 : SchedState) (j2 : JobV) (wd2 : String) (oc : Outcome)
      (ctx2 : Option (List Char)) (n2 : Nat), s2.fatalSeen = true →
      ((workerStep maxR s2 j2 wd2 oc ctx2 n2).1).fatalSeen = true) ∧
    (∀ (s2 : SchedState) (j2 : JobV), s2.fatalSeen = true →
      (addJob s2 j2).fatalSeen = true) ∧
    (∀ oc, oc ≠ Outcome.fatal →
      ((workerStep maxR s j wd oc ctx nonce).1).sentErrors = s.sentErrors) := by
  refine ⟨?_, ?_, ?_, ?_, ?_, ?_, ?_, ?_, ?_, ?_, ?_, ?_⟩
  · simp [workerStep]
  · simp [workerStep, has_fatal_error]
  · simp [workerStep]
  · simp [workerStep]
  · simp [workerStep, workerMuts, workerBranchMuts, applyMuts, applyMut,
      storeAppendCompleted]
  · simp [workerStep, archiveTag]
  · simp [workerStep]
  · simp [workerStep]
  · simp [workerStep]
  · intro s2 j2 wd2 oc ctx2 n2 h
    simp [workerStep, h]
  · intro s2 j2 h
    simp [addJob, h]
  · intro oc h
    simp [workerStep, h]

/-- Witness for C3: once a fatal attempt set the flag, a later successful
step on another job leaves `has_fatal_error` true. -/
theorem C3_witness :
    has_fatal_error ((workerStep 2
      ((workerStep 2 {} jobOptA "wd" .fatal none 0).1)
      { jobOptA with job_id := "n_opt_b", inp_stem := "n_opt" }
      "wd2" .success none 1).1) = true := by
  have h1 := (C3_fatal_stops 2 {} jobOptA "wd" none 0).1
  have h2 := (C3_fatal_stops 2 ((workerStep 2 {} jobOptA "wd" .fatal none 0).1)
      jobOptA "wd" none 0).2.2.2.2.2.2.2.2.2.1
    ((workerStep 2 {} jobOptA "wd" .fatal none 0).1)
    { jobOptA with job_id := "n_opt_b", inp_stem := "n_opt" } "wd2"
    .success none 1 h1
  simpa [has_fatal_error] using h2

/-! ## C10 — unreadable output is classified fatal -/

/-- C10: when the resolved output cannot be read at all
(`safe_read_text` returns `None`), `safe_parse_orca_output` reports a
fatal error with a could-not-read reason — not incomplete — so the
worker sets the fatal flag, does not re-queue the job, and exits. -/
theorem C10_unreadable_fatal (name : List Char) (maxR : Nat)
    (s : SchedState) (j : JobV) (wd : String) (ctx : Option (List Char))
    (nonce : Nat) :
    safe_parse_orca_output none name =
      (false, false, true,
       some ("Could not read output file: ".data ++ name)) ∧
    execOutcome (safe_parse_orca_output none name) = .fatal ∧
    execOutcome (safe_parse_orca_output none name) ≠ .incomplete ∧
    ((workerStep maxR s j wd
        (execOutcome (safe_parse_orca_output none name)) ctx nonce).1).queue =
      s.queue ∧
    ((workerStep maxR s j wd
        (execOutcome (safe_parse_orca_output none name)) ctx nonce).1).store.queued =
      storeDequeue s.store.queued j.job_id ∧
    ((workerStep maxR s j wd
        (execOutcome (safe_parse_orca_output none name)) ctx nonce).1).fatalSeen =
      true ∧
    (workerStep maxR s j wd
        (execOutcome (safe_parse_orca_output none name)) ctx nonce).2 = true := by
  have hp : safe_parse_orca_output none name =
      (false, false, true,
       some ("Could not read output file: ".data ++ name)) := rfl
  have ho : execOutcome (safe_parse_orca_output none name) = .fatal := rfl
  rw [ho]
  refine ⟨hp, rfl, by decide, ?_, ?_, ?_, ?_⟩
  · simp [workerStep]
  · simp [workerStep, workerMuts, workerBranchMuts, applyMuts, applyMut,
      storeDequeue]
  · simp [workerStep]
  · simp [workerStep]

/-! ## C5 — queued/running exclusivity -/

theorem applyMuts_append (st : Store) (a b : List Mut) :
    applyMuts st (a ++ b) = applyMuts (applyMuts st a) b :=
  List.foldl_append applyMut st a b

theorem mem_storeDequeue {q : List JobV} {id : String} {x : JobV}
    (h : x ∈ storeDequeue q id) : x ∈ q ∧ x.job_id ≠ id := by
  unfold storeDequeue at h
  have h2 := List.mem_filter.mp h
  exact ⟨h2.1, by simpa using h2.2⟩

theorem mem_storeRemoveRunning {r : List JobV} {id : String} {x : JobV}
    (h : x ∈ storeRemoveRunning r id) : x ∈ r ∧ x.job_id ≠ id := by
  unfold storeRemoveRunning at h
  have h2 := List.mem_filter.mp h
  exact ⟨h2.1, by simpa using h2.2⟩

theorem mem_storeEnqueue {q : List JobV} {j x : JobV}
    (h : x ∈ storeEnqueue q j) : x ∈ q ∨ x = j := by
  unfold storeEnqueue at h
  split at h
  · rcases List.mem_append.mp h with h2 | h2
    · exact .inl h2
    · simp at h2; exact .inr h2
  · exact .inl h

theorem mem_storeAddRunning {r : List JobV} {j x : JobV}
    (h : x ∈ storeAddRunning r j) : x ∈ r ∨ x = j := by
  unfold storeAddRunning at h
  split at h
  · rcases List.mem_append.mp h with h2 | h2
    · exact .inl h2
    · simp at h2; exact .inr h2
  · exact .inl h

theorem storeInv_enq (st : Store) (j : JobV) (hInv : StoreInv st)
    (hfresh : ∀ r ∈ st.running, r.job_id ≠ j.job_id) :
    StoreInv (applyMut st (.enq j)) := by
  intro q hq r hr
  rcases mem_storeEnqueue hq with h | h
  · exact hInv q h r hr
  · subst h
    exact fun he => hfresh r hr he.symm

theorem storeInv_deq (st : Store) (id : String) (hInv : StoreInv st) :
    StoreInv (applyMut st (.deq id)) := by
  intro q hq r hr
  exact hInv q (mem_storeDequeue hq).1 r hr

theorem storeInv_addRun (st : Store) (j : JobV) (hInv : StoreInv st)
    (hq : ∀ q ∈ st.queued, q.job_id ≠ j.job_id) :
    StoreInv (applyMut st (.addRun j)) := by
  intro q hq2 r hr
  rcases mem_storeAddRunning hr with h | h
  · exact hInv q hq2 r h
  · subst h
    exact hq q hq2

theorem storeInv_remRun (st : Store) (id : String) (hInv : StoreInv st) :
    StoreInv (applyMut st (.remRun id)) := by
  intro q hq r hr
  exact hInv q hq r (mem_storeRemoveRunning hr).1

theorem storeInv_appendComp (st : Store) (j : JobV) (hInv : StoreInv st) :
    StoreInv (applyMut st (.appendComp j)) := by
  intro q hq r hr
  exact hInv q hq r hr

/-- The running list after the dispatch prefix (dequeue, add to running,
remove from running) only keeps records of the prior running list whose
id differs from the dispatched job's. -/
theorem mem_running_after_dispatch (st : Store) (j : JobV) (wd : String)
    {x : JobV}
    (h : x ∈ (applyMuts st [Mut.deq j.job_id,
      Mut.addRun { j with work_dir := some wd },
      Mut.remRun j.job_id]).running) :
    x ∈ st.running ∧ x.job_id ≠ j.job_id := by
  have h2 := mem_storeRemoveRunning h
  rcases mem_storeAddRunning h2.1 with h3 | h3
  · exact ⟨h3, h2.2⟩
  · exfalso
    apply h2.2
    rw [h3]

theorem storeInv_workerMuts (st : Store) (maxR : Nat) (j : JobV)
    (wd : String) (oc : Outcome) (chain : Option JobV) (hInv : StoreInv st)
    (hchain : ∀ cj ∈ chain, ∀ r ∈ st.running, r.job_id ≠ cj.job_id) :
    StoreInv (applyMuts st (workerMuts maxR j wd oc chain)) := by
  have hInv1 : StoreInv (applyMut st (.deq j.job_id)) :=
    storeInv_deq st j.job_id hInv
  have hq1 : ∀ q ∈ (applyMut st (.deq j.job_id)).queued,
      q.job_id ≠ j.job_id := fun q hq => (mem_storeDequeue hq).2
  have hInv2 : StoreInv (applyMut (applyMut st (.deq j.job_id))
      (.addRun { j with work_dir := some wd })) :=
    storeInv_addRun _ _ hInv1 hq1
  have hInv3 : StoreInv (applyMut (applyMut (applyMut st (.deq j.job_id))
      (.addRun { j with work_dir := some wd })) (.remRun j.job_id)) :=
    storeInv_remRun _ _ hInv2
  have hrun3 : ∀ x ∈ (applyMut (applyMut (applyMut st (.deq j.job_id))
      (.addRun { j with work_dir := some wd })) (.remRun j.job_id)).running,
      x ∈ st.running ∧ x.job_id ≠ j.job_id :=
    fun x hx => mem_running_after_dispatch st j wd hx
  cases oc with
  | fatal => exact storeInv_appendComp _ j hInv3
  | recoverable => exact storeInv_appendComp _ j hInv3
  | success =>
    cases chain with
    | none => exact storeInv_appendComp _ j hInv3
    | some cj =>
      refine storeInv_enq _ cj (storeInv_appendComp _ j hInv3) ?_
      intro r hr
      exact hchain cj rfl r (hrun3 r hr).1
  | incomplete =>
    by_cases hret : j.retries < maxR
    · simp only [workerMuts, workerBranchMuts, if_pos hret]
      refine storeInv_enq _ _ hInv3 ?_
      intro r hr
      have := (hrun3 r hr).2
      simpa using this
    · simp only [workerMuts, workerBranchMuts, if_neg hret]
      exact storeInv_appendComp _ j hInv3

/-- One recovery block for a running record restores the invariant
regardless of the store it starts from: the record's id is removed from
running by the block's end, and only that record is ever enqueued. -/
theorem storeInv_recBlock (oracle : JobV → Option Outcome) (r : JobV)
    (st : Store) (hInv : StoreInv st) :
    StoreInv (applyMuts st (recRecordMuts oracle r).1) := by
  rcases ho : oracle r with _ | oc
  · -- no output: enqueue first, then remove from running
    simp only [recRecordMuts, ho]
    intro q hq r2 hr2
    have hr3 := mem_storeRemoveRunning hr2
    rcases mem_storeEnqueue hq with h | h
    · exact hInv q h r2 hr3.1
    · subst h
      exact fun he => hr3.2 he.symm
  · rcases hb : (decide (oc = Outcome.success) || decide (oc = Outcome.fatal))
        with _ | _
    · simp only [recRecordMuts, ho, hb, Bool.false_eq_true, if_false]
      intro q hq r2 hr2
      have hr3 := mem_storeRemoveRunning hr2
      rcases mem_storeEnqueue hq with h | h
      · exact hInv q h r2 hr3.1
      · subst h
        exact fun he => hr3.2 he.symm
    · simp only [recRecordMuts, ho, hb, if_true]
      exact storeInv_appendComp _ r (storeInv_remRun _ _ hInv)

/-- One recovery block never adds to the running list. -/
theorem running_subset_recBlock (oracle : JobV → Option Outcome) (r : JobV)
    (st : Store) {x : JobV}
    (h : x ∈ (applyMuts st (recRecordMuts oracle r).1).running) :
    x ∈ st.running := by
  rcases ho : oracle r with _ | oc
  · simp only [recRecordMuts, ho] at h
    exact (mem_storeRemoveRunning h).1
  · rcases hb : (decide (oc = Outcome.success) || decide (oc = Outcome.fatal))
        with _ | _
    · simp only [recRecordMuts, ho, hb, Bool.false_eq_true, if_false] at h
      exact (mem_storeRemoveRunning h).1
    · simp only [recRecordMuts, ho, hb, if_true] at h
      exact (mem_storeRemoveRunning h).1

theorem storeInv_recMutsList (oracle : JobV → Option Outcome)
    (rs : List JobV) : ∀ st : Store, StoreInv st →
    StoreInv (applyMuts st
      ((rs.map (fun r => (recRecordMuts oracle r).1)).flatten)) := by
  induction rs with
  | nil => intro st h; exact h
  | cons r rest ih =>
    intro st h
    rw [List.map_cons, List.flatten_cons, applyMuts, List.foldl_append]
    exact ih _ (storeInv_recBlock oracle r st h)

theorem running_subset_recMutsList (oracle : JobV → Option Outcome)
    (rs : List JobV) : ∀ (st : Store) (x : JobV),
    x ∈ (applyMuts st
      ((rs.map (fun r => (recRecordMuts oracle r).1)).flatten)).running →
    x ∈ st.running := by
  induction rs with
  | nil => intro st x h; exact h
  | cons r rest ih =>
    intro st x h
    rw [List.map_cons, List.flatten_cons, applyMuts, List.foldl_append] at h
    exact running_subset_recBlock oracle r st (ih _ x h)

theorem storeInv_enqList (js : List JobV) : ∀ st : Store, StoreInv st →
    (∀ j ∈ js, ∀ r ∈ st.running, r.job_id ≠ j.job_id) →
    StoreInv (applyMuts st (js.map Mut.enq)) := by
  induction js with
  | nil => intro st h _; exact h
  | cons j rest ih =>
    intro st h hfresh
    rw [List.map_cons, applyMuts, List.foldl_cons]
    refine ih _ (storeInv_enq st j h (hfresh j (by simp))) ?_
    intro j2 hj2 r hr
    exact hfresh j2 (by simp [hj2]) r hr

/-- C5 amended: at the boundary of every operation — fresh-id submission,
worker iteration, recovery run — each `job_id` appears in at most one of
the persisted queued and running lists.  (Within a recovery run the
no-output path transiently enqueues a record before removing it from
running; see the counterexample.) -/
theorem C5_store_exclusive (st : Store) (h : StoreReach st) : StoreInv st := by
  induction h with
  | init => intro q hq r hr; cases hq
  | submit st j h hfresh ih => exact storeInv_enq st j ih hfresh
  | worker st maxR j wd oc chain h hchain ih =>
    exact storeInv_workerMuts st maxR j wd oc chain ih hchain
  | recover st oracle waiting nonce h hfresh ih =>
    unfold recoveryMuts
    rw [applyMuts, List.foldl_append]
    refine storeInv_enqList _ _ (storeInv_recMutsList oracle _ st ih) ?_
    intro dj hdj r hr
    exact hfresh dj hdj r (running_subset_recMutsList oracle _ st r hr)

/-- C5 counterexample: recovering a running record whose output cannot be
located enqueues the record *before* removing it from the running list —
after that first mutation (an observable `StateStore` write) the id `b1`
is in both the queued and the running list, falsifying the claim at that
observable point. -/
theorem C5_counterexample :
    recoveryMuts (fun _ => none)
      { queued := [], running := [jobRb], completed := [] } [] 0 =
      [Mut.enq { jobRb with status := "waiting" }, Mut.remRun "b1"] ∧
    StoreInv { queued := [], running := [jobRb], completed := [] } ∧
    ¬ StoreInv (applyMuts
      { queued := [], running := [jobRb], completed := [] }
      [Mut.enq { jobRb with status := "waiting" }]) :=
  ⟨by decide, by decide, by decide⟩

/-- Witness for C5: the invariant holds after a fresh submission to the
empty store. -/
theorem C5_witness : StoreInv (applyMut {} (Mut.enq jobOptA)) :=
  C5_store_exclusive _ (StoreReach.submit {} jobOptA StoreReach.init
    (by intro r hr; cases hr))

/-! ## C4 — recovery idempotence -/

/-- Processing one running record filters exactly its id out of the
persisted running list, whatever the oracle answers. -/
theorem recBlock_running (oracle : JobV → Option Outcome) (r : JobV)
    (st : Store) :
    (applyMuts st (recRecordMuts oracle r).1).running =
      storeRemoveRunning st.running r.job_id := by
  rcases ho : oracle r with _ | oc
  · simp only [recRecordMuts, ho]
    rfl
  · rcases hb : (decide (oc = Outcome.success) || decide (oc = Outcome.fatal))
        with _ | _
    · simp only [recRecordMuts, ho, hb, Bool.false_eq_true, if_false]
      rfl
    · simp only [recRecordMuts, ho, hb, if_true]
      rfl

/-- Every job a recovery block re-enqueues carries the record's id. -/
theorem recBlock_snd_ids (oracle : JobV → Option Outcome) (r : JobV) :
    ∀ x ∈ (recRecordMuts oracle r).2, x.job_id = r.job_id := by
  rcases ho : oracle r with _ | oc
  · simp only [recRecordMuts, ho]
    intro x hx
    simp at hx
    rw [hx]
  · rcases hb : (decide (oc = Outcome.success) || decide (oc = Outcome.fatal))
        with _ | _
    · simp only [recRecordMuts, ho, hb, Bool.false_eq_true, if_false]
      intro x hx
      simp at hx
      rw [hx]
    · simp only [recRecordMuts, ho, hb, if_true]
      intro x hx
      simp at hx

/-- When no queued record shares the block's id, the block appends
exactly its re-enqueued jobs to the queued list. -/
theorem recBlock_queued (oracle : JobV → Option Outcome) (r : JobV)
    (st : Store) (hq : ∀ q ∈ st.queued, q.job_id ≠ r.job_id) :
    (applyMuts st (recRecordMuts oracle r).1).queued =
      st.queued ++ (recRecordMuts oracle r).2 := by
  have hall : st.queued.all
      (fun x => x.job_id ≠ ({ r with status := "waiting" } : JobV).job_id)
      = true :=
    List.all_eq_true.mpr fun x hx => by simpa using hq x hx
  rcases ho : oracle r with _ | oc
  · simp only [recRecordMuts, ho]
    show storeEnqueue st.queued { r with status := "waiting" } = _
    unfold storeEnqueue
    rw [if_pos hall]
  · rcases hb : (decide (oc = Outcome.success) || decide (oc = Outcome.fatal))
        with _ | _
    · simp only [recRecordMuts, ho, hb, Bool.false_eq_true, if_false]
      show storeEnqueue st.queued { r with status := "waiting" } = _
      unfold storeEnqueue
      rw [if_pos hall]
    · simp only [recRecordMuts, ho, hb, if_true]
      show (applyMuts st [Mut.remRun r.job_id, Mut.appendComp r]).queued =
        st.queued ++ []
      rw [List.append_nil]
      rfl

/-- A recovery block leaves the waiting-deck-free part of the run
unchanged: folding all blocks of a running snapshot appends exactly the
re-enqueued jobs to the queued list. -/
theorem recMutsList_queued (oracle : JobV → Option Outcome)
    (rs : List JobV) : ∀ st : Store,
    (∀ r ∈ rs, ∀ q ∈ st.queued, q.job_id ≠ r.job_id) →
    ((rs.map (fun r => r.job_id)).Nodup) →
    (applyMuts st ((rs.map (fun r => (recRecordMuts oracle r).1)).flatten)).queued
      = st.queued ++ (rs.map (fun r => (recRecordMuts oracle r).2)).flatten := by
  induction rs with
  | nil => intro st _ _; simp [applyMuts]
  | cons r rest ih =>
    intro st h1 h2
    rw [List.map_cons, List.flatten_cons, applyMuts_append]
    rw [List.map_cons, List.flatten_cons]
    have hq1 := recBlock_queued oracle r st (h1 r (by simp))
    have hnd : ((rest.map (fun r => r.job_id)).Nodup) := by
      rw [List.map_cons, List.nodup_cons] at h2
      exact h2.2
    have hne : r.job_id ∉ rest.map (fun x => x.job_id) := by
      rw [List.map_cons, List.nodup_cons] at h2
      exact h2.1
    have h1' : ∀ r2 ∈ rest,
        ∀ q ∈ (applyMuts st (recRecordMuts oracle r).1).queued,
        q.job_id ≠ r2.job_id := by
      intro r2 hr2 q hq
      rw [hq1] at hq
      rcases List.mem_append.mp hq with h | h
      · exact h1 r2 (by simp [hr2]) q h
      · have hid := recBlock_snd_ids oracle r q h
        rw [hid]
        intro he
        exact hne (he ▸ List.mem_map_of_mem (fun x => x.job_id) hr2)
    have := ih (applyMuts st (recRecordMuts oracle r).1) h1' hnd
    rw [this, hq1, List.append_assoc]

/-- Folding the blocks of the running snapshot empties the running
list. -/
theorem recMutsList_running (oracle : JobV → Option Outcome)
    (rs : List JobV) : ∀ st : Store,
    (∀ x ∈ st.running, x.job_id ∈ rs.map (fun r => r.job_id)) →
    (applyMuts st ((rs.map (fun r => (recRecordMuts oracle r).1)).flatten)).running
      = [] := by
  induction rs with
  | nil =>
    intro st h
    simp only [List.map_nil, List.flatten_nil]
    show st.running = []
    rw [List.eq_nil_iff_forall_not_mem]
    intro x hx
    have := h x hx
    simp at this
  | cons r rest ih =>
    intro st h
    rw [List.map_cons, List.flatten_cons, applyMuts, List.foldl_append]
    refine ih _ ?_
    intro x hx
    rw [show (List.foldl applyMut st (recRecordMuts oracle r).1) =
        applyMuts st (recRecordMuts oracle r).1 from rfl,
      recBlock_running] at hx
    have h2 := mem_storeRemoveRunning hx
    have h3 := h x h2.1
    rw [List.map_cons, List.mem_cons] at h3
    rcases h3 with h3 | h3
    · exact absurd h3 h2.2
    · exact h3

/-- C4 counterexample: on a disk whose state lists are empty and whose
waiting directory holds the single orphan deck `m_opt.inp`, one recovery
run renames the deck and enqueues one job — but a second run renames it
again and enqueues a second job: the in-memory pending queue and the
persisted queued list both grow from one entry to two, so recovery is not
idempotent. -/
theorem C4_counterexample :
    (recoverOnStart (fun _ => none)
        { store := {}, waiting := ["m_opt.inp"] } 0).1.length = 1 ∧
    (recoverOnStart (fun _ => none)
        (recoverOnStart (fun _ => none)
          { store := {}, waiting := ["m_opt.inp"] } 0).2.1
        (recoverOnStart (fun _ => none)
          { store := {}, waiting := ["m_opt.inp"] } 0).2.2).1.length = 2 ∧
    (recoverOnStart (fun _ => none)
        (recoverOnStart (fun _ => none)
          { store := {}, waiting := ["m_opt.inp"] } 0).2.1
        (recoverOnStart (fun _ => none)
          { store := {}, waiting := ["m_opt.inp"] } 0).2.2).1 ≠
      (recoverOnStart (fun _ => none)
        { store := {}, waiting := ["m_opt.inp"] } 0).1 ∧
    (recoverOnStart (fun _ => none)
        (recoverOnStart (fun _ => none)
          { store := {}, waiting := ["m_opt.inp"] } 0).2.1
        (recoverOnStart (fun _ => none)
          { store := {}, waiting := ["m_opt.inp"] } 0).2.2).2.1.store.queued ≠
      (recoverOnStart (fun _ => none)
        { store := {}, waiting := ["m_opt.inp"] } 0).2.1.store.queued :=
  ⟨by decide, by decide, by decide, by decide⟩

/-- C4 amended: recovery is idempotent when the waiting directory holds
no orphan decks (and job ids in the persisted queued and running lists
are pairwise distinct): a second run reproduces the same in-memory
pending queue, disk state, and nonce.  Orphan decks, by contrast, are
renamed and re-enqueued under a fresh job id by every run (see the
counterexample). -/
theorem recover_trivial (oracle : JobV → Option Outcome) (d2 : Disk)
    (nonce2 : Nat) (hr : d2.store.running = [])
    (hw2 : d2.waiting.filter (globStarMatch ".inp") = []) :
    recoverOnStart oracle d2 nonce2 = (d2.store.queued, d2, nonce2) := by
  obtain ⟨⟨q2, r2, c2⟩, w2⟩ := d2
  simp only [] at hr hw2
  subst hr
  simp [recoverOnStart, recoveryMuts, hw2, processWaiting, applyMuts]

theorem C4_recovery_idempotent_no_orphans (oracle : JobV → Option Outcome)
    (d : Disk) (nonce : Nat)
    (hw : d.waiting.filter (globStarMatch ".inp") = [])
    (hnd : (((d.store.queued ++ d.store.running).map
      (fun j => j.job_id)).Nodup)) :
    recoverOnStart oracle
        (recoverOnStart oracle d nonce).2.1
        (recoverOnStart oracle d nonce).2.2 =
      recoverOnStart oracle d nonce := by
  rw [List.map_append, List.nodup_append] at hnd
  obtain ⟨hndQ, hndR, hdisj⟩ := hnd
  have h1 : ∀ r ∈ d.store.running, ∀ q ∈ d.store.queued,
      q.job_id ≠ r.job_id := by
    intro r hr q hq he
    exact hdisj (List.mem_map_of_mem _ hq)
      (he ▸ List.mem_map_of_mem (fun j => j.job_id) hr)
  have hq1 := recMutsList_queued oracle d.store.running d.store
    (fun r hr q hq => h1 r hr q hq) hndR
  have hr1 := recMutsList_running oracle d.store.running d.store
    (fun x hx => List.mem_map_of_mem (fun r => r.job_id) hx)
  have hpw : processWaiting d.waiting nonce
      (d.waiting.filter (globStarMatch ".inp")) = (d.waiting, [], nonce) := by
    rw [hw]; rfl
  set F := (d.store.running.map (fun r => (recRecordMuts oracle r).1)).flatten
    with hF
  set reqs := (d.store.running.map (fun r => (recRecordMuts oracle r).2)).flatten
    with hreqs
  set D1 : Disk := { store := applyMuts d.store F, waiting := d.waiting }
    with hD1
  have hrun1 : recoverOnStart oracle d nonce =
      (d.store.queued ++ reqs, D1, nonce) := by
    unfold recoverOnStart recoveryMuts
    rw [hpw]
    simp [hD1, hF, hreqs]
  rw [hrun1]
  have hD1r : D1.store.running = [] := hr1
  have hD1w : D1.waiting.filter (globStarMatch ".inp") = [] := hw
  have h2 := recover_trivial oracle D1 nonce hD1r hD1w
  show recoverOnStart oracle D1 nonce = (d.store.queued ++ reqs, D1, nonce)
  rw [h2]
  have hD1q : D1.store.queued = d.store.queued ++ reqs := hq1
  rw [hD1q]

/-- Witness for C4: with no orphan decks, a second recovery run changes
nothing. -/
theorem C4_witness :
    recoverOnStart (fun _ => some .incomplete)
        (recoverOnStart (fun _ => some .incomplete) diskW 0).2.1
        (recoverOnStart (fun _ => some .incomplete) diskW 0).2.2 =
      recoverOnStart (fun _ => some .incomplete) diskW 0 :=
  C4_recovery_idempotent_no_orphans (fun _ => some .incomplete) diskW 0
    (by decide) (by decide)

end Orca
